import Mathlib

/-!
Verification of the pcbdl connectivity core (`pcbdl/base.py`).

The development below is a shallow embedding of the schematic-capture data
model: nets, pins bound to part instances, the connect operation with its
direction tags, the anonymous-net auto-creation, and the part/pin
instantiation pipeline (pin-template normalization, pin-number resolution,
power-well resolution, plugin hooks).

Object identity is modelled by indices: a `GraphState` carries the list of
all `NetData` and all `PinData` created so far, and a pin or net is referred
to by its position in that list.  Python's `OrderedDict` is modelled by an
ordered association list with update-in-place assignment (`odAssign`).
Exceptions are modelled by `Option Err` results: an operation returns the
state as the Python interpreter leaves it together with the exception it
raised, if any (mutations performed before the raise are kept, exactly as in
the source).
-/

deriving instance DecidableEq for Except

namespace Pcbdl

/-- Direction tag recorded per net member (`ConnectDirection` in base.py). -/
inductive ConnectDirection where
  | UNKNOWN
  | IN
  | OUT
deriving DecidableEq, Repr

/-- Electrical pin type (`PinType` in base.py). -/
inductive PinType where
  | UNKNOWN
  | PRIMARY
  | SECONDARY
  | POWER_INPUT
  | POWER_OUTPUT
  | GROUND
  | INPUT
  | OUTPUT
deriving DecidableEq, Repr

/-- Exceptions raised by the connectivity core.  Each constructor corresponds
to one raise site in base.py (`ValueError` in the `net` setter,
`NotImplementedError` in `Net.connect` for net targets, `NotImplementedError`
in `Part.get_pin_to_connect`, `KeyError`/`ValueError` during well
resolution), plus the spec's name for a failed default-pin selection. -/
inductive Err where
  | pinAlreadyConnected
  | netToNetUnsupported
  | getPinNotImplemented
  | noSuchPinType
deriving DecidableEq, Repr

/-- One net: optional (uppercased) name and the ordered member map
`_connections`, keyed by pin id with a direction value. -/
structure NetData where
  name : Option String
  connections : List (Nat × ConnectDirection)
deriving DecidableEq, Repr

/-- The per-instance state of one bound pin that the connect machinery
touches: the one-shot `_net` field and the pin's electrical type. -/
structure PinData where
  net : Option Nat
  type : PinType
deriving DecidableEq, Repr

/-- The whole connectivity graph: every net and every bound pin created so
far, identified by position. -/
structure GraphState where
  nets : List NetData
  pins : List PinData
deriving DecidableEq, Repr

/-- The empty graph. -/
def emptyGraph : GraphState := ⟨[], []⟩

/-- Replace the element at index `i` by `f` of it; out-of-range indices leave
the list unchanged (models in-place mutation of an existing object). -/
def listModify {α : Type} (l : List α) (i : Nat) (f : α → α) : List α :=
  match l, i with
  | [], _ => []
  | a :: t, 0 => f a :: t
  | a :: t, n + 1 => a :: listModify t n f

/-- ASCII uppercase of one character (what Python's `str.upper` does on the
ASCII names used throughout base.py). -/
def charUpper (c : Char) : Char :=
  if 97 ≤ c.toNat ∧ c.toNat ≤ 122 then Char.ofNat (c.toNat - 32) else c

/-- ASCII uppercase of a string, models `.upper()` calls in base.py. -/
def strUpper (s : String) : String :=
  ⟨s.data.map charUpper⟩

/-- Ordered-dict assignment `d[k] = v`: update in place if the key is
present (keeping its position), otherwise append at the end. -/
def odAssign {α β : Type} [DecidableEq α] (l : List (α × β)) (k : α) (v : β) :
    List (α × β) :=
  if l.any (fun e => e.1 = k) then
    l.map (fun e => if e.1 = k then (k, v) else e)
  else l ++ [(k, v)]

/-- Member map of net `n` (empty for an id that names no net). -/
def connsOf (s : GraphState) (n : Nat) : List (Nat × ConnectDirection) :=
  (s.nets.getD n ⟨none, []⟩).connections

/-- Name of net `n`. -/
def netName (s : GraphState) (n : Nat) : Option String :=
  (s.nets.getD n ⟨none, []⟩).name

/-- The pin ids present in net `n`'s member map, in insertion order. -/
def netMembers (s : GraphState) (n : Nat) : List Nat :=
  (connsOf s n).map Prod.fst

/-- The `_net` field of pin `p` (`None` for an id that names no pin). -/
def pinNetField (s : GraphState) (p : Nat) : Option Nat :=
  (s.pins.getD p ⟨none, PinType.UNKNOWN⟩).net

/-- The electrical type of pin `p`. -/
def pinTypeOf (s : GraphState) (p : Nat) : PinType :=
  (s.pins.getD p ⟨none, PinType.UNKNOWN⟩).type

/-- `Net(name)`: append a fresh net with the uppercased name and an empty
member map; returns the new net's id. -/
def netNew (s : GraphState) (name : Option String) : GraphState × Nat :=
  (⟨s.nets ++ [⟨name.map strUpper, []⟩], s.pins⟩, s.nets.length)

/-- Creation of one bound pin with no net (what `ParticularPin.__init__`
leaves in `_net`). -/
def addPin (s : GraphState) (t : PinType) : GraphState × Nat :=
  (⟨s.nets, s.pins ++ [⟨none, t⟩]⟩, s.pins.length)

/-- The body of `Net.connect`'s loop for one resolved pin: first
`self._connections[pin] = direction`, then the `pin.net = self` assignment,
whose setter raises `ValueError` (pinAlreadyConnected) when `_net` is
already set — note the member-map insertion has already happened by then. -/
def connectOnePin (s : GraphState) (nid p : Nat) (dir : ConnectDirection) :
    GraphState × Option Err :=
  let s1 : GraphState :=
    ⟨listModify s.nets nid (fun nd => ⟨nd.name, odAssign nd.connections p dir⟩),
     s.pins⟩
  match pinNetField s1 p with
  | some _ => (s1, some Err.pinAlreadyConnected)
  | none =>
      (⟨s1.nets, listModify s1.pins p (fun pd => ⟨some nid, pd.type⟩)⟩, none)

/-- A connect target: a specific bound pin, a part (carrying the ids of its
bound pins), or a net. -/
inductive Target where
  | pinT (p : Nat)
  | partT (pins : List Nat)
  | netT (n : Nat)
deriving DecidableEq, Repr

/-- Dispatch on one target exactly as `Net.connect` does: a `Part` target
asks `Part.get_pin_to_connect`, which in base.py unconditionally raises
`NotImplementedError`; a `Net` target raises `NotImplementedError`
("Can't connect nets together yet"); a pin target is connected. -/
def connectTarget (s : GraphState) (nid : Nat) (t : Target)
    (dir : ConnectDirection) : GraphState × Option Err :=
  match t with
  | Target.partT _ => (s, some Err.getPinNotImplemented)
  | Target.pinT p => connectOnePin s nid p dir
  | Target.netT _ => (s, some Err.netToNetUnsupported)

/-- `Net.connect(others, direction)`: iterate over the target group in
order; the first exception aborts the loop (later elements untouched), but
mutations already performed are kept. -/
def netConnect (s : GraphState) (nid : Nat) (ts : List Target)
    (dir : ConnectDirection) : GraphState × Option Err :=
  match ts with
  | [] => (s, none)
  | t :: rest =>
    match connectTarget s nid t dir with
    | (s1, some e) => (s1, some e)
    | (s1, none) => netConnect s1 nid rest dir

/-- `Net.__lshift__`: connect the group with direction IN and return `self`
(the same net id) for chaining. -/
def netLshift (s : GraphState) (nid : Nat) (ts : List Target) :
    (GraphState × Option Err) × Nat :=
  (netConnect s nid ts ConnectDirection.IN, nid)

/-- `Net.__rshift__`: connect the group with direction OUT and return
`self` for chaining. -/
def netRshift (s : GraphState) (nid : Nat) (ts : List Target) :
    (GraphState × Option Err) × Nat :=
  (netConnect s nid ts ConnectDirection.OUT, nid)

/-- The `ParticularPin.net` getter: if `_net` is unset, create an anonymous
net and connect this pin into it with direction UNKNOWN, then return the
`_net` field. -/
def pinNetGet (s : GraphState) (p : Nat) : GraphState × Option Nat :=
  match pinNetField s p with
  | some n => (s, some n)
  | none =>
      let s1 := (netNew s none).1
      let s2 := (connectOnePin s1 s.nets.length p ConnectDirection.UNKNOWN).1
      (s2, pinNetField s2 p)

/-- The seeding step `ParticularPin._create_anonymous_net() >> self` (resp.
`<< self`) performed by a bare pin's directional connect: a fresh anonymous
net whose first member is this pin with direction `d`. -/
def pinSeed (s : GraphState) (p : Nat) (d : ConnectDirection) : GraphState :=
  (connectOnePin (netNew s none).1 s.nets.length p d).1

/-- The tail `return self.net <op> others` of a pin's directional connect:
read the pin's net through the getter, then connect the others into it with
the given direction, returning the net used. -/
def pinConnectVia (s : GraphState) (p : Nat) (ts : List Target)
    (dir : ConnectDirection) : (GraphState × Option Err) × Option Nat :=
  match pinNetGet s p with
  | (s2, some nid) => (netConnect s2 nid ts dir, some nid)
  | (s2, none) => ((s2, none), none)

/-- `ParticularPin.__lshift__`: when the pin has no net yet, first seed a
fresh anonymous net with this pin as OUT, then forward to the net's
`__lshift__` (direction IN for the others); returns the net used. -/
def pinLshift (s : GraphState) (p : Nat) (ts : List Target) :
    (GraphState × Option Err) × Option Nat :=
  pinConnectVia
    (if pinNetField s p = none then pinSeed s p ConnectDirection.OUT else s)
    p ts ConnectDirection.IN

/-- `ParticularPin.__rshift__`: when the pin has no net yet, first seed a
fresh anonymous net with this pin as IN, then forward to the net's
`__rshift__` (direction OUT for the others); returns the net used. -/
def pinRshift (s : GraphState) (p : Nat) (ts : List Target) :
    (GraphState × Option Err) × Option Nat :=
  pinConnectVia
    (if pinNetField s p = none then pinSeed s p ConnectDirection.IN else s)
    p ts ConnectDirection.OUT

/-- A pin template (`class Pin` in base.py): alias names (uppercased by the
constructor), optional explicit pin numbers, electrical type, optional name
of the power-well pin on the same part. -/
structure PinTemplate where
  names : List String
  numbers : Option (List String)
  type : PinType
  well_name : Option String
deriving DecidableEq, Repr

/-- `Pin.__init__`: uppercase every alias; numbers, type and well name are
stored as given. -/
def mkPin (names : List String) (numbers : Option (List String))
    (type : PinType) (well : Option String) : PinTemplate :=
  ⟨names.map strUpper, numbers, type, well⟩

/-- One bound pin produced by part instantiation (`ParticularPin`): the
template state is copied, numbers are resolved, and the well reference, if
any, is resolved to the index of another bound pin of the same part. -/
structure BoundPin where
  names : List String
  numbers : List String
  type : PinType
  well : Option Nat
deriving DecidableEq, Repr

/-- Placeholder bound pin used for out-of-range lookups. -/
def noPin : BoundPin := ⟨[], [], PinType.UNKNOWN, none⟩

/-- Primary display name of a bound pin (`Pin.name`, i.e. `names[0]`). -/
def BoundPin.primary (b : BoundPin) : String :=
  b.names.headD ""

/-- Errors raised while instantiating a part's pins: `KeyError` when a well
alias resolves to no pin, `ValueError` when the well pin is not a power
pin. -/
inductive PartErr where
  | unknownWellPin
  | invalidWellPinType
deriving DecidableEq, Repr

/-- Plain dictionary lookup in the pin map (keys are primary names). -/
def assocLookup (m : List (String × Nat)) (k : String) : Option Nat :=
  match m with
  | [] => none
  | (k', v) :: rest => if k' = k then some v else assocLookup rest k

/-- The fallback scan of `_PinList.__getitem__`: walk the map's values in
insertion order and return the first pin whose full alias list contains the
requested (uppercased) name. -/
def scanNames (bound : List BoundPin) (m : List (String × Nat))
    (u : String) : Option Nat :=
  match m with
  | [] => none
  | (_, j) :: rest =>
      if u ∈ (bound.getD j noPin).names then some j else scanNames bound rest u

/-- `_PinList.__getitem__` with a string key: uppercase the key, try the
dictionary directly, then fall back to the linear alias scan. -/
def pinListGet (bound : List BoundPin) (m : List (String × Nat))
    (key : String) : Option Nat :=
  match assocLookup m (strUpper key) with
  | some j => some j
  | none => scanNames bound m (strUpper key)

/-- Resolution of a bound pin's numbers (`ParticularPin.__init__` together
with the `pin_number = str(i) if ... else None` line of
`_generate_pin_instances`): a template without numbers gets the single
synthetic number `str(i)`; explicit numbers are kept verbatim. -/
def resolvedNumbers (spec : PinTemplate) (i : Nat) : List String :=
  match spec.numbers with
  | none => [toString i]
  | some ns => ns

/-- The well-resolution part of `ParticularPin.__init__`: no declared well
name resolves to no well; a declared name is looked up among the pins built
so far (raising `KeyError` — `unknownWellPin` — when absent), and the found
pin must be a power pin (else `ValueError` — `invalidWellPinType`). -/
def wellResolve (bound : List BoundPin) (m : List (String × Nat))
    (wn : Option String) : Except PartErr (Option Nat) :=
  match wn with
  | none => Except.ok none
  | some w =>
    match pinListGet bound m w with
    | none => Except.error PartErr.unknownWellPin
    | some j =>
        if (bound.getD j noPin).type = PinType.POWER_INPUT ∨
            (bound.getD j noPin).type = PinType.POWER_OUTPUT then
          Except.ok (some j)
        else Except.error PartErr.invalidWellPinType

/-- `ParticularPin.__init__` for the `i`-th template, given the bound pins
and pin map built so far: copy the template's names and type, resolve the
numbers, and resolve the well alias against the pins declared so far. -/
def mkParticularPin (bound : List BoundPin) (m : List (String × Nat))
    (spec : PinTemplate) (i : Nat) : Except PartErr BoundPin :=
  match wellResolve bound m spec.well_name with
  | Except.error e => Except.error e
  | Except.ok wj =>
      Except.ok ⟨spec.names, resolvedNumbers spec i, spec.type, wj⟩

/-- One entry of a part class's `PINS` list before normalization: a plain
alias string, a tuple of aliases, or a full `Pin` instance. -/
inductive PinEntry where
  | nameE (s : String)
  | namesE (ss : List String)
  | pinE (p : PinTemplate)
deriving DecidableEq, Repr

/-- The normalization loop of `_generate_pin_instances`: entries that are
not already `Pin` instances are wrapped by `Pin(maybenames)` with default
numbers/type/well. -/
def normalizeEntry : PinEntry → PinTemplate
  | PinEntry.nameE s => mkPin [s] none PinType.UNKNOWN none
  | PinEntry.namesE ss => mkPin ss none PinType.UNKNOWN none
  | PinEntry.pinE p => p

/-- The pin-construction loop of `_generate_pin_instances`: build one bound
pin per template in order, recording it in the pin map under its primary
name (a duplicate primary name silently overwrites the earlier entry, as
dictionary assignment does). -/
def genPinsGo (specs : List PinTemplate) (i : Nat) (bound : List BoundPin)
    (m : List (String × Nat)) :
    Except PartErr (List BoundPin × List (String × Nat)) :=
  match specs with
  | [] => Except.ok (bound, m)
  | spec :: rest =>
    match mkParticularPin bound m spec i with
    | Except.error e => Except.error e
    | Except.ok bp =>
        genPinsGo rest (i + 1) (bound ++ [bp])
          (odAssign m bp.primary bound.length)

/-- `Part._generate_pin_instances`: normalize the `PINS` entries, then build
the bound pins and the alias map. -/
def generatePinInstances (entries : List PinEntry) :
    Except PartErr (List BoundPin × List (String × Nat)) :=
  genPinsGo (entries.map normalizeEntry) 0 [] []

/-- An observable plugin-hook invocation: `init` of a plugin registered on
`Pin`, on `ParticularPin`, or on `Part` (plugins identified by number). -/
inductive HookEvent where
  | pinHook (h : Nat)
  | boundPinHook (h : Nat)
  | partHook (h : Nat)
deriving DecidableEq, Repr

/-- The three `_plugins` registries relevant to part instantiation. -/
structure PluginRegistry where
  pinPlugins : List Nat
  particularPinPlugins : List Nat
  partPlugins : List Nat
deriving DecidableEq, Repr

/-- Hook invocations performed by the normalization loop: each entry that is
not already a `Pin` instance is passed to `Pin(...)`, whose `__init__` runs
every plugin registered on `Pin`, in registration order.  `ParticularPin`
construction runs no hooks at all: its `__init__` copies the template's
state and never iterates `_plugins` (and never calls `Pin.__init__`). -/
def normEvents (reg : PluginRegistry) (entries : List PinEntry) :
    List HookEvent :=
  (entries.map (fun e =>
    match e with
    | PinEntry.pinE _ => []
    | _ => reg.pinPlugins.map HookEvent.pinHook)).flatten

/-- `Part.__init__`: set the part's own fields, run
`_generate_pin_instances`, then run every plugin registered on `Part` in
registration order.  The result pairs the generated pins with the ordered
trace of hook invocations. -/
def partInit (reg : PluginRegistry) (entries : List PinEntry) :
    Except PartErr ((List BoundPin × List (String × Nat)) × List HookEvent) :=
  match generatePinInstances entries with
  | Except.error e => Except.error e
  | Except.ok res =>
      Except.ok (res, normEvents reg entries ++
        reg.partPlugins.map HookEvent.partHook)

/-- One operation a building script can perform on the connectivity graph:
create a named or anonymous net, create a bound pin (as part instantiation
does), call `Net.connect` / `Net.__lshift__` / `Net.__rshift__` on a target
group, call a pin's directional connect, or read a pin's `net` property. -/
inductive Step where
  | mkNet (name : Option String)
  | mkPin (t : PinType)
  | connect (nid : Nat) (ts : List Target) (dir : ConnectDirection)
  | connL (p : Nat) (ts : List Target)
  | connR (p : Nat) (ts : List Target)
  | getNet (p : Nat)
deriving DecidableEq, Repr

/-- A target only mentions objects that exist (a Python script can only pass
objects it holds references to). -/
def targetValid (s : GraphState) : Target → Bool
  | Target.pinT p => p < s.pins.length
  | Target.partT pl => pl.all (fun p => p < s.pins.length)
  | Target.netT n => n < s.nets.length

/-- A step only mentions objects that exist in the current state. -/
def stepValid (s : GraphState) : Step → Bool
  | Step.mkNet _ => true
  | Step.mkPin _ => true
  | Step.connect nid ts _ =>
      decide (nid < s.nets.length) && ts.all (targetValid s)
  | Step.connL p ts => decide (p < s.pins.length) && ts.all (targetValid s)
  | Step.connR p ts => decide (p < s.pins.length) && ts.all (targetValid s)
  | Step.getNet p => decide (p < s.pins.length)

/-- Apply one step, keeping the state the interpreter leaves behind even
when the step raised an exception (the surrounding script may catch it and
continue); steps naming nonexistent objects leave the state unchanged. -/
def applyStep (s : GraphState) (st : Step) : GraphState :=
  if stepValid s st then
    match st with
    | Step.mkNet nm => (netNew s nm).1
    | Step.mkPin t => (addPin s t).1
    | Step.connect nid ts dir => (netConnect s nid ts dir).1
    | Step.connL p ts => (pinLshift s p ts).1.1
    | Step.connR p ts => (pinRshift s p ts).1.1
    | Step.getNet p => (pinNetGet s p).1
  else s

/-- The graph state reached by a sequence of operations starting from the
empty graph, errors included. -/
def run (steps : List Step) : GraphState :=
  steps.foldl applyStep emptyGraph

/-- The exception raised by one step, if any. -/
def stepErr (s : GraphState) : Step → Option Err
  | Step.mkNet _ => none
  | Step.mkPin _ => none
  | Step.connect nid ts dir => (netConnect s nid ts dir).2
  | Step.connL p ts => (pinLshift s p ts).1.2
  | Step.connR p ts => (pinRshift s p ts).1.2
  | Step.getNet _ => none

/-- Apply one step when it is valid and raises no exception. -/
def applyStepOk (s : GraphState) (st : Step) : Option GraphState :=
  if stepValid s st ∧ stepErr s st = none then some (applyStep s st)
  else none

/-- Run a sequence of operations from `s`, succeeding only if every step is
valid and raises no exception. -/
def runOkFrom (s : GraphState) : List Step → Option GraphState
  | [] => some s
  | st :: rest =>
    match applyStepOk s st with
    | none => none
    | some s' => runOkFrom s' rest

/-- Error-free execution of a sequence of operations from the empty graph. -/
def runOk (steps : List Step) : Option GraphState :=
  runOkFrom emptyGraph steps

/-- The symmetric-membership invariant: every entry of a net's member map
names an existing pin whose `net` field points back at that net, and every
set `net` field is reflected by an entry in that net's member map. -/
def Inv (s : GraphState) : Prop :=
  (∀ n p d, (p, d) ∈ connsOf s n → p < s.pins.length ∧ pinNetField s p = some n) ∧
  (∀ p n, pinNetField s p = some n → ∃ d, (p, d) ∈ connsOf s n)

theorem listModify_length {α : Type} (l : List α) (i : Nat) (f : α → α) :
    (listModify l i f).length = l.length := by
  induction l generalizing i with
  | nil => rfl
  | cons a t ih =>
    cases i with
    | zero => rfl
    | succ n => simp [listModify, ih]

theorem listModify_getD_ne {α : Type} (l : List α) (i j : Nat) (f : α → α)
    (d : α) (h : i ≠ j) : (listModify l i f).getD j d = l.getD j d := by
  induction l generalizing i j with
  | nil => rfl
  | cons a t ih =>
    cases i with
    | zero =>
      cases j with
      | zero => exact absurd rfl h
      | succ m => rfl
    | succ n =>
      cases j with
      | zero => rfl
      | succ m =>
        simp only [listModify, List.getD_cons_succ]
        exact ih n m (by omega)

theorem listModify_getD_self {α : Type} (l : List α) (i : Nat) (f : α → α)
    (d : α) (h : i < l.length) :
    (listModify l i f).getD i d = f (l.getD i d) := by
  induction l generalizing i with
  | nil => simp at h
  | cons a t ih =>
    cases i with
    | zero => rfl
    | succ n =>
      simp only [listModify, List.getD_cons_succ]
      exact ih n (by simpa using Nat.lt_of_succ_lt_succ h)

theorem listModify_oob {α : Type} (l : List α) (i : Nat) (f : α → α)
    (h : l.length ≤ i) : listModify l i f = l := by
  induction l generalizing i with
  | nil => rfl
  | cons a t ih =>
    cases i with
    | zero => simp at h
    | succ n =>
      simp only [listModify, List.cons.injEq, true_and]
      exact ih n (by simpa using Nat.le_of_succ_le_succ h)

theorem odAssign_of_not_key {α β : Type} [DecidableEq α]
    (l : List (α × β)) (k : α) (v : β) (h : ∀ e ∈ l, e.1 ≠ k) :
    odAssign l k v = l ++ [(k, v)] := by
  unfold odAssign
  rw [if_neg]
  simp only [List.any_eq_true, decide_eq_true_eq, not_exists]
  intro e he
  exact h e he.1 he.2

theorem netNew_pins (s : GraphState) (nm : Option String) :
    (netNew s nm).1.pins = s.pins := rfl

theorem netNew_nets_length (s : GraphState) (nm : Option String) :
    (netNew s nm).1.nets.length = s.nets.length + 1 := by
  simp [netNew]

theorem pinNetField_netNew (s : GraphState) (nm : Option String) (p : Nat) :
    pinNetField (netNew s nm).1 p = pinNetField s p := rfl

theorem connsOf_netNew_old (s : GraphState) (nm : Option String) (n : Nat)
    (h : n < s.nets.length) : connsOf (netNew s nm).1 n = connsOf s n := by
  unfold connsOf netNew
  simp only
  rw [List.getD_append _ _ _ _ h]

theorem connsOf_netNew_fresh (s : GraphState) (nm : Option String) :
    connsOf (netNew s nm).1 s.nets.length = [] := by
  unfold connsOf netNew
  simp [List.getD]

theorem connsOf_oob (s : GraphState) (n : Nat) (h : s.nets.length ≤ n) :
    connsOf s n = [] := by
  unfold connsOf
  rw [List.getD_eq_default]
  exact h

theorem connectOnePin_snd (s : GraphState) (nid p : Nat)
    (dir : ConnectDirection) :
    (connectOnePin s nid p dir).2 =
      (pinNetField s p).map (fun _ => Err.pinAlreadyConnected) := by
  unfold connectOnePin
  cases h : pinNetField s p with
  | none => simp only [pinNetField] at h ⊢; rw [h]; rfl
  | some n => simp only [pinNetField] at h ⊢; rw [h]; rfl

theorem connectOnePin_nets (s : GraphState) (nid p : Nat)
    (dir : ConnectDirection) :
    (connectOnePin s nid p dir).1.nets =
      listModify s.nets nid
        (fun nd => ⟨nd.name, odAssign nd.connections p dir⟩) := by
  unfold connectOnePin
  cases h : pinNetField s p with
  | none => simp only [pinNetField] at h ⊢; rw [h]
  | some n => simp only [pinNetField] at h ⊢; rw [h]

theorem connectOnePin_pins_of_some (s : GraphState) (nid p : Nat)
    (dir : ConnectDirection) (n : Nat) (h : pinNetField s p = some n) :
    (connectOnePin s nid p dir).1.pins = s.pins := by
  unfold connectOnePin
  simp only [pinNetField] at h ⊢
  rw [h]

theorem connectOnePin_pins_of_none (s : GraphState) (nid p : Nat)
    (dir : ConnectDirection) (h : pinNetField s p = none) :
    (connectOnePin s nid p dir).1.pins =
      listModify s.pins p (fun pd => ⟨some nid, pd.type⟩) := by
  unfold connectOnePin
  simp only [pinNetField] at h ⊢
  rw [h]

theorem connectOnePin_pins_length (s : GraphState) (nid p : Nat)
    (dir : ConnectDirection) :
    (connectOnePin s nid p dir).1.pins.length = s.pins.length := by
  cases h : pinNetField s p with
  | none => rw [connectOnePin_pins_of_none s nid p dir h, listModify_length]
  | some n => rw [connectOnePin_pins_of_some s nid p dir n h]

theorem connectOnePin_nets_length (s : GraphState) (nid p : Nat)
    (dir : ConnectDirection) :
    (connectOnePin s nid p dir).1.nets.length = s.nets.length := by
  rw [connectOnePin_nets, listModify_length]

theorem connsOf_connectOnePin_ne (s : GraphState) (nid p : Nat)
    (dir : ConnectDirection) (n : Nat) (h : n ≠ nid) :
    connsOf (connectOnePin s nid p dir).1 n = connsOf s n := by
  unfold connsOf
  rw [connectOnePin_nets, listModify_getD_ne]
  exact fun hh => h hh.symm

theorem connsOf_connectOnePin_self (s : GraphState) (nid p : Nat)
    (dir : ConnectDirection) (h : nid < s.nets.length) :
    connsOf (connectOnePin s nid p dir).1 nid =
      odAssign (connsOf s nid) p dir := by
  unfold connsOf
  rw [connectOnePin_nets, listModify_getD_self _ _ _ _ h]

theorem netName_connectOnePin (s : GraphState) (nid p : Nat)
    (dir : ConnectDirection) (n : Nat) :
    netName (connectOnePin s nid p dir).1 n = netName s n := by
  unfold netName
  rw [connectOnePin_nets]
  rcases Nat.lt_or_ge nid s.nets.length with hlt | hge
  · rcases eq_or_ne nid n with rfl | hne
    · rw [listModify_getD_self _ _ _ _ hlt]
    · rw [listModify_getD_ne _ _ _ _ _ hne]
  · rw [listModify_oob _ _ _ hge]

theorem pinNetField_connectOnePin_of_some (s : GraphState) (nid p : Nat)
    (dir : ConnectDirection) (n : Nat) (h : pinNetField s p = some n)
    (q : Nat) :
    pinNetField (connectOnePin s nid p dir).1 q = pinNetField s q := by
  unfold pinNetField
  rw [connectOnePin_pins_of_some s nid p dir n h]

theorem pinNetField_connectOnePin_ne (s : GraphState) (nid p : Nat)
    (dir : ConnectDirection) (q : Nat) (h : q ≠ p) :
    pinNetField (connectOnePin s nid p dir).1 q = pinNetField s q := by
  cases hf : pinNetField s p with
  | some n => exact pinNetField_connectOnePin_of_some s nid p dir n hf q
  | none =>
    unfold pinNetField
    rw [connectOnePin_pins_of_none s nid p dir hf, listModify_getD_ne]
    exact fun hh => h hh.symm

theorem pinNetField_connectOnePin_self (s : GraphState) (nid p : Nat)
    (dir : ConnectDirection) (hf : pinNetField s p = none)
    (hp : p < s.pins.length) :
    pinNetField (connectOnePin s nid p dir).1 p = some nid := by
  unfold pinNetField
  rw [connectOnePin_pins_of_none s nid p dir hf,
    listModify_getD_self _ _ _ _ hp]

theorem connectTarget_pins_length (s : GraphState) (nid : Nat) (t : Target)
    (dir : ConnectDirection) :
    (connectTarget s nid t dir).1.pins.length = s.pins.length := by
  cases t with
  | pinT p => exact connectOnePin_pins_length s nid p dir
  | partT pl => rfl
  | netT n => rfl

theorem connectTarget_nets_length (s : GraphState) (nid : Nat) (t : Target)
    (dir : ConnectDirection) :
    (connectTarget s nid t dir).1.nets.length = s.nets.length := by
  cases t with
  | pinT p => exact connectOnePin_nets_length s nid p dir
  | partT pl => rfl
  | netT n => rfl

theorem netConnect_pins_length (s : GraphState) (nid : Nat) (ts : List Target)
    (dir : ConnectDirection) :
    (netConnect s nid ts dir).1.pins.length = s.pins.length := by
  induction ts generalizing s with
  | nil => rfl
  | cons t rest ih =>
    unfold netConnect
    rcases hct : connectTarget s nid t dir with ⟨s1, e⟩
    have h1 : s1.pins.length = s.pins.length := by
      have h2 := connectTarget_pins_length s nid t dir
      rw [hct] at h2
      exact h2
    cases e with
    | some err => simpa using h1
    | none => simpa using (ih s1).trans h1

theorem netConnect_nets_length (s : GraphState) (nid : Nat) (ts : List Target)
    (dir : ConnectDirection) :
    (netConnect s nid ts dir).1.nets.length = s.nets.length := by
  induction ts generalizing s with
  | nil => rfl
  | cons t rest ih =>
    unfold netConnect
    rcases hct : connectTarget s nid t dir with ⟨s1, e⟩
    have h1 : s1.nets.length = s.nets.length := by
      have h2 := connectTarget_nets_length s nid t dir
      rw [hct] at h2
      exact h2
    cases e with
    | some err => simpa using h1
    | none => simpa using (ih s1).trans h1

theorem lt_nets_length_of_mem_conns (s : GraphState) (n : Nat)
    (e : Nat × ConnectDirection) (h : e ∈ connsOf s n) : n < s.nets.length := by
  by_contra hge
  rw [connsOf_oob s n (Nat.le_of_not_lt hge)] at h
  exact absurd h (List.not_mem_nil e)

theorem conns_key_ne_of_net_none (s : GraphState) (hInv : Inv s) (p : Nat)
    (hf : pinNetField s p = none) (n : Nat) :
    ∀ e ∈ connsOf s n, e.1 ≠ p := by
  intro e he hep
  have hmem : (p, e.2) ∈ connsOf s n := by
    rw [← hep]
    simpa using he
  have h2 := (hInv.1 n p e.2 hmem).2
  rw [hf] at h2
  exact Option.noConfusion h2

theorem pinNetField_addPin (s : GraphState) (t : PinType) (q : Nat) :
    pinNetField (addPin s t).1 q =
      if q < s.pins.length then pinNetField s q else none := by
  unfold pinNetField addPin
  simp only
  rcases Nat.lt_or_ge q s.pins.length with hlt | hge
  · rw [if_pos hlt, List.getD_append _ _ _ _ hlt]
  · rw [if_neg (Nat.not_lt.2 hge)]
    rw [List.getD_append_right _ _ _ _ hge]
    rcases Nat.eq_or_lt_of_le hge with heq | hlt2
    · rw [← heq, Nat.sub_self]
      rfl
    · rw [List.getD_eq_default]
      simp only [List.length_singleton]
      omega

theorem inv_empty : Inv emptyGraph := by
  constructor
  · intro n p d h
    cases n <;> simp [connsOf, emptyGraph, List.getD] at h
  · intro p n h
    cases p <;> simp [pinNetField, emptyGraph, List.getD] at h

theorem inv_netNew (s : GraphState) (nm : Option String) (hInv : Inv s) :
    Inv (netNew s nm).1 := by
  constructor
  · intro n q d hq
    have hn : n < s.nets.length := by
      by_contra hge
      have hge' : s.nets.length ≤ n := Nat.le_of_not_lt hge
      rcases Nat.eq_or_lt_of_le hge' with heq | hlt
      · rw [← heq, connsOf_netNew_fresh] at hq
        exact absurd hq (List.not_mem_nil _)
      · rw [connsOf_oob _ _ (by rw [netNew_nets_length]; omega)] at hq
        exact absurd hq (List.not_mem_nil _)
    rw [connsOf_netNew_old _ _ _ hn] at hq
    have h2 := hInv.1 n q d hq
    rw [netNew_pins, pinNetField_netNew]
    exact h2
  · intro q n hq
    rw [pinNetField_netNew] at hq
    obtain ⟨d, hd⟩ := hInv.2 q n hq
    have hn : n < s.nets.length := lt_nets_length_of_mem_conns s n _ hd
    rw [connsOf_netNew_old _ _ _ hn]
    exact ⟨d, hd⟩

theorem inv_addPin (s : GraphState) (t : PinType) (hInv : Inv s) :
    Inv (addPin s t).1 := by
  have hconns : ∀ n, connsOf (addPin s t).1 n = connsOf s n := fun n => rfl
  constructor
  · intro n q d hq
    rw [hconns] at hq
    have h2 := hInv.1 n q d hq
    refine ⟨?_, ?_⟩
    · show q < (s.pins ++ [(⟨none, t⟩ : PinData)]).length
      simp only [List.length_append, List.length_singleton]
      omega
    · rw [pinNetField_addPin, if_pos h2.1]
      exact h2.2
  · intro q n hq
    rw [pinNetField_addPin] at hq
    by_cases hlt : q < s.pins.length
    · rw [if_pos hlt] at hq
      obtain ⟨d, hd⟩ := hInv.2 q n hq
      exact ⟨d, by rw [hconns]; exact hd⟩
    · rw [if_neg hlt] at hq
      exact Option.noConfusion hq

theorem inv_connectOnePin (s : GraphState) (nid p : Nat)
    (dir : ConnectDirection) (hInv : Inv s) (hn : nid < s.nets.length)
    (hp : p < s.pins.length) (hf : pinNetField s p = none) :
    Inv (connectOnePin s nid p dir).1 := by
  have hkey := conns_key_ne_of_net_none s hInv p hf
  have hself : connsOf (connectOnePin s nid p dir).1 nid =
      connsOf s nid ++ [(p, dir)] := by
    rw [connsOf_connectOnePin_self s nid p dir hn,
      odAssign_of_not_key _ _ _ (hkey nid)]
  have hplen := connectOnePin_pins_length s nid p dir
  constructor
  · intro n q d hq
    by_cases hn' : n = nid
    · rw [hn', hself] at hq
      rw [hn']
      rcases List.mem_append.1 hq with hq | hq
      · have h2 := hInv.1 nid q d hq
        have hqp : q ≠ p := by
          intro hqp
          exact hkey nid (q, d) hq (by simpa using hqp)
        rw [pinNetField_connectOnePin_ne s nid p dir q hqp]
        exact ⟨by omega, h2.2⟩
      · simp only [List.mem_singleton, Prod.mk.injEq] at hq
        rw [hq.1]
        rw [pinNetField_connectOnePin_self s nid p dir hf hp]
        exact ⟨by omega, rfl⟩
    · rw [connsOf_connectOnePin_ne s nid p dir n hn'] at hq
      have h2 := hInv.1 n q d hq
      have hqp : q ≠ p := by
        intro hqp
        exact hkey n (q, d) hq (by simpa using hqp)
      rw [pinNetField_connectOnePin_ne s nid p dir q hqp]
      exact ⟨by omega, h2.2⟩
  · intro q n hq
    by_cases hqp : q = p
    · rw [hqp, pinNetField_connectOnePin_self s nid p dir hf hp] at hq
      cases hq
      rw [hqp]
      exact ⟨dir, by rw [hself]; exact List.mem_append_right _ (by simp)⟩
    · rw [pinNetField_connectOnePin_ne s nid p dir q hqp] at hq
      obtain ⟨d, hd⟩ := hInv.2 q n hq
      refine ⟨d, ?_⟩
      by_cases hn' : n = nid
      · subst hn'
        rw [hself]
        exact List.mem_append_left _ hd
      · rw [connsOf_connectOnePin_ne s nid p dir n hn']
        exact hd

theorem targetValid_mono (s s' : GraphState) (t : Target)
    (hp : s.pins.length ≤ s'.pins.length)
    (hn : s.nets.length ≤ s'.nets.length)
    (h : targetValid s t = true) : targetValid s' t = true := by
  cases t with
  | pinT p =>
    simp only [targetValid, decide_eq_true_eq] at h ⊢
    omega
  | partT pl =>
    simp only [targetValid, List.all_eq_true, decide_eq_true_eq] at h ⊢
    intro x hx
    have h2 := h x hx
    omega
  | netT n =>
    simp only [targetValid, decide_eq_true_eq] at h ⊢
    omega

theorem netConnect_cons_ok (s : GraphState) (nid : Nat) (t : Target)
    (rest : List Target) (dir : ConnectDirection) (s1 : GraphState)
    (h : connectTarget s nid t dir = (s1, none)) :
    netConnect s nid (t :: rest) dir = netConnect s1 nid rest dir := by
  conv_lhs => unfold netConnect
  rw [h]

theorem netConnect_cons_err (s : GraphState) (nid : Nat) (t : Target)
    (rest : List Target) (dir : ConnectDirection) (s1 : GraphState) (e : Err)
    (h : connectTarget s nid t dir = (s1, some e)) :
    netConnect s nid (t :: rest) dir = (s1, some e) := by
  conv_lhs => unfold netConnect
  rw [h]

theorem inv_netConnect (s : GraphState) (nid : Nat) (ts : List Target)
    (dir : ConnectDirection) (hInv : Inv s) (hn : nid < s.nets.length)
    (hts : ∀ t ∈ ts, targetValid s t = true)
    (hok : (netConnect s nid ts dir).2 = none) :
    Inv (netConnect s nid ts dir).1 := by
  induction ts generalizing s with
  | nil => exact hInv
  | cons t rest ih =>
    cases t with
    | partT pl =>
      rw [netConnect_cons_err s nid (Target.partT pl) rest dir s
        Err.getPinNotImplemented rfl] at hok
      exact absurd hok (by simp)
    | netT m =>
      rw [netConnect_cons_err s nid (Target.netT m) rest dir s
        Err.netToNetUnsupported rfl] at hok
      exact absurd hok (by simp)
    | pinT p =>
      have hp : p < s.pins.length := by
        have h2 := hts (Target.pinT p) (List.mem_cons_self _ _)
        simpa [targetValid] using h2
      rcases hct : connectOnePin s nid p dir with ⟨s1, e⟩
      have hct' : connectTarget s nid (Target.pinT p) dir = (s1, e) := hct
      cases e with
      | some err =>
        rw [netConnect_cons_err s nid _ rest dir s1 err hct'] at hok
        exact absurd hok (by simp)
      | none =>
        rw [netConnect_cons_ok s nid _ rest dir s1 hct'] at hok ⊢
        have hsnd := connectOnePin_snd s nid p dir
        rw [hct] at hsnd
        have hfield : pinNetField s p = none := by
          cases hf : pinNetField s p with
          | none => rfl
          | some m =>
            rw [hf] at hsnd
            exact absurd hsnd.symm (by simp)
        have hInv1 : Inv s1 := by
          have h3 := inv_connectOnePin s nid p dir hInv hn hp hfield
          rw [hct] at h3
          exact h3
        have hplen : s1.pins.length = s.pins.length := by
          have h3 := connectOnePin_pins_length s nid p dir
          rw [hct] at h3
          exact h3
        have hnlen : s1.nets.length = s.nets.length := by
          have h3 := connectOnePin_nets_length s nid p dir
          rw [hct] at h3
          exact h3
        refine ih s1 hInv1 (by omega) ?_ hok
        intro t ht
        exact targetValid_mono s s1 t (by omega) (by omega)
          (hts t (List.mem_cons_of_mem _ ht))

theorem pinSeed_nets_length (s : GraphState) (p : Nat)
    (d : ConnectDirection) :
    (pinSeed s p d).nets.length = s.nets.length + 1 := by
  unfold pinSeed
  rw [connectOnePin_nets_length, netNew_nets_length]

theorem pinSeed_pins_length (s : GraphState) (p : Nat)
    (d : ConnectDirection) :
    (pinSeed s p d).pins.length = s.pins.length := by
  unfold pinSeed
  rw [connectOnePin_pins_length, netNew_pins]

theorem pinNetField_pinSeed_self (s : GraphState) (p : Nat)
    (d : ConnectDirection) (hf : pinNetField s p = none)
    (hp : p < s.pins.length) :
    pinNetField (pinSeed s p d) p = some s.nets.length := by
  unfold pinSeed
  rw [pinNetField_connectOnePin_self]
  · rw [pinNetField_netNew]
    exact hf
  · rw [netNew_pins]
    exact hp

theorem pinNetField_pinSeed_ne (s : GraphState) (p : Nat)
    (d : ConnectDirection) (q : Nat) (h : q ≠ p) :
    pinNetField (pinSeed s p d) q = pinNetField s q := by
  unfold pinSeed
  rw [pinNetField_connectOnePin_ne _ _ _ _ _ h, pinNetField_netNew]

theorem connsOf_pinSeed_fresh (s : GraphState) (p : Nat)
    (d : ConnectDirection) :
    connsOf (pinSeed s p d) s.nets.length = [(p, d)] := by
  unfold pinSeed
  rw [connsOf_connectOnePin_self _ _ _ _ (by rw [netNew_nets_length]; omega),
    connsOf_netNew_fresh]
  rfl

theorem connsOf_pinSeed_old (s : GraphState) (p : Nat)
    (d : ConnectDirection) (n : Nat) (h : n < s.nets.length) :
    connsOf (pinSeed s p d) n = connsOf s n := by
  unfold pinSeed
  rw [connsOf_connectOnePin_ne _ _ _ _ _ (by omega),
    connsOf_netNew_old _ _ _ h]

theorem netName_netNew_fresh (s : GraphState) (nm : Option String) :
    netName (netNew s nm).1 s.nets.length = nm.map strUpper := by
  unfold netName netNew
  simp [List.getD]

theorem netName_pinSeed_fresh (s : GraphState) (p : Nat)
    (d : ConnectDirection) :
    netName (pinSeed s p d) s.nets.length = none := by
  unfold pinSeed
  rw [netName_connectOnePin, netName_netNew_fresh]
  rfl

theorem inv_pinSeed (s : GraphState) (p : Nat) (d : ConnectDirection)
    (hInv : Inv s) (hp : p < s.pins.length) (hf : pinNetField s p = none) :
    Inv (pinSeed s p d) := by
  unfold pinSeed
  refine inv_connectOnePin _ _ _ _ (inv_netNew s none hInv) ?_ ?_ ?_
  · rw [netNew_nets_length]
    omega
  · rw [netNew_pins]
    exact hp
  · rw [pinNetField_netNew]
    exact hf

theorem inv_field_lt (s : GraphState) (p n : Nat) (hInv : Inv s)
    (h : pinNetField s p = some n) : n < s.nets.length := by
  obtain ⟨d, hd⟩ := hInv.2 p n h
  exact lt_nets_length_of_mem_conns s n _ hd

theorem pinNetGet_of_some (s : GraphState) (p n : Nat)
    (h : pinNetField s p = some n) : pinNetGet s p = (s, some n) := by
  unfold pinNetGet
  rw [h]

theorem pinNetGet_of_none (s : GraphState) (p : Nat)
    (hf : pinNetField s p = none) (hp : p < s.pins.length) :
    pinNetGet s p =
      (pinSeed s p ConnectDirection.UNKNOWN, some s.nets.length) := by
  unfold pinNetGet
  rw [hf]
  simp only
  rw [show (connectOnePin (netNew s none).1 s.nets.length p
      ConnectDirection.UNKNOWN).1 = pinSeed s p ConnectDirection.UNKNOWN
      from rfl]
  rw [pinNetField_pinSeed_self s p _ hf hp]

theorem inv_pinNetGet (s : GraphState) (p : Nat) (hInv : Inv s)
    (hp : p < s.pins.length) : Inv (pinNetGet s p).1 := by
  cases hf : pinNetField s p with
  | some n =>
    rw [pinNetGet_of_some s p n hf]
    exact hInv
  | none =>
    rw [pinNetGet_of_none s p hf hp]
    exact inv_pinSeed s p _ hInv hp hf

theorem pinConnectVia_eq (s s' : GraphState) (p n : Nat) (ts : List Target)
    (dir : ConnectDirection) (h : pinNetGet s p = (s', some n)) :
    pinConnectVia s p ts dir = (netConnect s' n ts dir, some n) := by
  unfold pinConnectVia
  rw [h]

theorem pinLshift_of_none (s : GraphState) (p : Nat) (ts : List Target)
    (hf : pinNetField s p = none) (hp : p < s.pins.length) :
    pinLshift s p ts =
      (netConnect (pinSeed s p ConnectDirection.OUT) s.nets.length ts
        ConnectDirection.IN, some s.nets.length) := by
  unfold pinLshift
  rw [if_pos hf]
  exact pinConnectVia_eq _ _ p s.nets.length ts _
    (pinNetGet_of_some _ p s.nets.length
      (pinNetField_pinSeed_self s p ConnectDirection.OUT hf hp))

theorem pinLshift_of_some (s : GraphState) (p n : Nat) (ts : List Target)
    (h : pinNetField s p = some n) :
    pinLshift s p ts = (netConnect s n ts ConnectDirection.IN, some n) := by
  unfold pinLshift
  rw [if_neg (by rw [h]; exact fun hh => Option.noConfusion hh)]
  exact pinConnectVia_eq s s p n ts _ (pinNetGet_of_some s p n h)

theorem pinRshift_of_none (s : GraphState) (p : Nat) (ts : List Target)
    (hf : pinNetField s p = none) (hp : p < s.pins.length) :
    pinRshift s p ts =
      (netConnect (pinSeed s p ConnectDirection.IN) s.nets.length ts
        ConnectDirection.OUT, some s.nets.length) := by
  unfold pinRshift
  rw [if_pos hf]
  exact pinConnectVia_eq _ _ p s.nets.length ts _
    (pinNetGet_of_some _ p s.nets.length
      (pinNetField_pinSeed_self s p ConnectDirection.IN hf hp))

theorem pinRshift_of_some (s : GraphState) (p n : Nat) (ts : List Target)
    (h : pinNetField s p = some n) :
    pinRshift s p ts = (netConnect s n ts ConnectDirection.OUT, some n) := by
  unfold pinRshift
  rw [if_neg (by rw [h]; exact fun hh => Option.noConfusion hh)]
  exact pinConnectVia_eq s s p n ts _ (pinNetGet_of_some s p n h)

theorem inv_pinLshift (s : GraphState) (p : Nat) (ts : List Target)
    (hInv : Inv s) (hp : p < s.pins.length)
    (hts : ∀ t ∈ ts, targetValid s t = true)
    (hok : (pinLshift s p ts).1.2 = none) : Inv (pinLshift s p ts).1.1 := by
  cases hf : pinNetField s p with
  | none =>
    rw [pinLshift_of_none s p ts hf hp] at hok ⊢
    refine inv_netConnect _ _ _ _ (inv_pinSeed s p _ hInv hp hf) ?_ ?_ hok
    · rw [pinSeed_nets_length]
      omega
    · intro t ht
      exact targetValid_mono s _ t (by rw [pinSeed_pins_length])
        (by rw [pinSeed_nets_length]; omega) (hts t ht)
  | some n =>
    rw [pinLshift_of_some s p n ts hf] at hok ⊢
    exact inv_netConnect s n ts _ hInv (inv_field_lt s p n hInv hf) hts hok

theorem inv_pinRshift (s : GraphState) (p : Nat) (ts : List Target)
    (hInv : Inv s) (hp : p < s.pins.length)
    (hts : ∀ t ∈ ts, targetValid s t = true)
    (hok : (pinRshift s p ts).1.2 = none) : Inv (pinRshift s p ts).1.1 := by
  cases hf : pinNetField s p with
  | none =>
    rw [pinRshift_of_none s p ts hf hp] at hok ⊢
    refine inv_netConnect _ _ _ _ (inv_pinSeed s p _ hInv hp hf) ?_ ?_ hok
    · rw [pinSeed_nets_length]
      omega
    · intro t ht
      exact targetValid_mono s _ t (by rw [pinSeed_pins_length])
        (by rw [pinSeed_nets_length]; omega) (hts t ht)
  | some n =>
    rw [pinRshift_of_some s p n ts hf] at hok ⊢
    exact inv_netConnect s n ts _ hInv (inv_field_lt s p n hInv hf) hts hok

theorem inv_applyStepOk (s s' : GraphState) (st : Step)
    (h : applyStepOk s st = some s') (hInv : Inv s) : Inv s' := by
  unfold applyStepOk at h
  by_cases hc : stepValid s st = true ∧ stepErr s st = none
  · rw [if_pos hc] at h
    have hs' : applyStep s st = s' := Option.some.inj h
    rw [← hs']
    unfold applyStep
    rw [if_pos hc.1]
    cases st with
    | mkNet nm => exact inv_netNew s nm hInv
    | mkPin t => exact inv_addPin s t hInv
    | connect nid ts dir =>
      have hv := hc.1
      simp only [stepValid, Bool.and_eq_true, decide_eq_true_eq,
        List.all_eq_true] at hv
      exact inv_netConnect s nid ts dir hInv hv.1 (fun t ht => hv.2 t ht) hc.2
    | connL p ts =>
      have hv := hc.1
      simp only [stepValid, Bool.and_eq_true, decide_eq_true_eq,
        List.all_eq_true] at hv
      exact inv_pinLshift s p ts hInv hv.1 (fun t ht => hv.2 t ht) hc.2
    | connR p ts =>
      have hv := hc.1
      simp only [stepValid, Bool.and_eq_true, decide_eq_true_eq,
        List.all_eq_true] at hv
      exact inv_pinRshift s p ts hInv hv.1 (fun t ht => hv.2 t ht) hc.2
    | getNet p =>
      have hv := hc.1
      simp only [stepValid, decide_eq_true_eq] at hv
      exact inv_pinNetGet s p hInv hv
  · rw [if_neg hc] at h
    exact Option.noConfusion h

theorem inv_runOkFrom (steps : List Step) (s s' : GraphState)
    (h : runOkFrom s steps = some s') (hInv : Inv s) : Inv s' := by
  induction steps generalizing s with
  | nil =>
    unfold runOkFrom at h
    have hs := Option.some.inj h
    rw [← hs]
    exact hInv
  | cons st rest ih =>
    unfold runOkFrom at h
    cases happ : applyStepOk s st with
    | none =>
      rw [happ] at h
      exact Option.noConfusion h
    | some s1 =>
      rw [happ] at h
      exact ih s1 h (inv_applyStepOk s s1 st happ hInv)

theorem inv_runOk (steps : List Step) (s : GraphState)
    (h : runOk steps = some s) : Inv s :=
  inv_runOkFrom steps emptyGraph s h inv_empty

/-- C1: for every bound pin whose `net` field is already set to `n1`, a
subsequent `Net.connect` of that pin into any net `n2` (including `n1`
itself) raises `PinAlreadyConnected`, and afterwards the pin's `net` field
still equals `n1`. -/
theorem c1_reconnect_rejected (s : GraphState) (p n1 n2 : Nat)
    (dir : ConnectDirection) (h : pinNetField s p = some n1) :
    (netConnect s n2 [Target.pinT p] dir).2 = some Err.pinAlreadyConnected ∧
    pinNetField (netConnect s n2 [Target.pinT p] dir).1 p = some n1 := by
  have hsnd : (connectOnePin s n2 p dir).2 = some Err.pinAlreadyConnected := by
    rw [connectOnePin_snd, h]
    rfl
  have hpair : connectOnePin s n2 p dir =
      ((connectOnePin s n2 p dir).1, some Err.pinAlreadyConnected) :=
    Prod.ext rfl hsnd
  rw [netConnect_cons_err s n2 (Target.pinT p) [] dir
    (connectOnePin s n2 p dir).1 Err.pinAlreadyConnected hpair]
  refine ⟨rfl, ?_⟩
  show pinNetField (connectOnePin s n2 p dir).1 p = some n1
  rw [pinNetField_connectOnePin_of_some s n2 p dir n1 h p]
  exact h

/-- Witness for C1 at a concrete graph: one pin already connected to net 0;
connecting it into net 1 raises and leaves the field at 0. -/
theorem c1_witness :
    (netConnect ⟨[⟨none, [(0, ConnectDirection.IN)]⟩, ⟨none, []⟩],
        [⟨some 0, PinType.PRIMARY⟩]⟩ 1 [Target.pinT 0]
        ConnectDirection.IN).2 = some Err.pinAlreadyConnected ∧
    pinNetField (netConnect ⟨[⟨none, [(0, ConnectDirection.IN)]⟩, ⟨none, []⟩],
        [⟨some 0, PinType.PRIMARY⟩]⟩ 1 [Target.pinT 0]
        ConnectDirection.IN).1 0 = some 0 :=
  c1_reconnect_rejected ⟨[⟨none, [(0, ConnectDirection.IN)]⟩, ⟨none, []⟩],
    [⟨some 0, PinType.PRIMARY⟩]⟩ 0 0 1 ConnectDirection.IN (by decide)

/-- C2 counterexample: the claim quantifies over all reachable states,
including ones where a connect raised.  After creating one pin and two
nets, connecting the pin into net 0 and then attempting to connect it into
net 1 (which raises `PinAlreadyConnected`), the pin sits in the member maps
of BOTH nets, and it sits in net 1's member map while its `net` field is
net 0 — so both "at most one net" and the symmetry iff are false. -/
theorem c2_counterexample :
    let s := run [Step.mkPin PinType.PRIMARY, Step.mkNet none, Step.mkNet none,
      Step.connect 0 [Target.pinT 0] ConnectDirection.IN,
      Step.connect 1 [Target.pinT 0] ConnectDirection.IN]
    (0 ∈ netMembers s 0 ∧ 0 ∈ netMembers s 1 ∧ (0 : Nat) ≠ 1) ∧
    (0 ∈ netMembers s 1 ∧ pinNetField s 0 ≠ some 1) := by decide

/-- C2 (amended): for every state reachable by a sequence of operations in
which every operation succeeded (no exception raised), each bound pin
occurs in the member map of at most one net, and a pin occurs in a net's
member map iff that pin's `net` field names that net.  (The original claim
also covered error states; it fails there because `Net.connect` inserts
into the member map before the one-shot `net` check, see the
counterexample.) -/
theorem c2_symmetric_membership_when_error_free (steps : List Step)
    (s : GraphState) (h : runOk steps = some s) :
    (∀ p n1 n2, p ∈ netMembers s n1 → p ∈ netMembers s n2 → n1 = n2) ∧
    (∀ p, p < s.pins.length →
      ∀ n, (p ∈ netMembers s n ↔ pinNetField s p = some n)) := by
  have hInv := inv_runOk steps s h
  constructor
  · intro p n1 n2 h1 h2
    obtain ⟨e1, he1, hkey1⟩ := List.mem_map.1 h1
    obtain ⟨e2, he2, hkey2⟩ := List.mem_map.1 h2
    have f1 := (hInv.1 n1 e1.1 e1.2 (by simpa using he1)).2
    have f2 := (hInv.1 n2 e2.1 e2.2 (by simpa using he2)).2
    rw [hkey1] at f1
    rw [hkey2] at f2
    rw [f1] at f2
    exact Option.some.inj f2
  · intro p hp n
    constructor
    · intro hmem
      obtain ⟨e, he, hkey⟩ := List.mem_map.1 hmem
      have f := (hInv.1 n e.1 e.2 (by simpa using he)).2
      rw [hkey] at f
      exact f
    · intro hf
      obtain ⟨d, hd⟩ := hInv.2 p n hf
      exact List.mem_map.2 ⟨(p, d), hd, rfl⟩

/-- Witness for C2 (amended) on the error-free trace that creates one pin
and one net and connects them. -/
theorem c2_witness :
    (0 ∈ netMembers ⟨[⟨none, [(0, ConnectDirection.IN)]⟩],
        [⟨some 0, PinType.PRIMARY⟩]⟩ 0 ↔
      pinNetField ⟨[⟨none, [(0, ConnectDirection.IN)]⟩],
        [⟨some 0, PinType.PRIMARY⟩]⟩ 0 = some 0) :=
  (c2_symmetric_membership_when_error_free
    [Step.mkPin PinType.PRIMARY, Step.mkNet none,
     Step.connect 0 [Target.pinT 0] ConnectDirection.IN]
    ⟨[⟨none, [(0, ConnectDirection.IN)]⟩], [⟨some 0, PinType.PRIMARY⟩]⟩
    (by decide)).2 0 (by decide) 0

/-- C10: reading the `net` property of a pin whose net is unset mutates the
graph — it creates a fresh anonymous net holding exactly this pin with
direction UNKNOWN, sets the pin's field to it, and returns it — and the
getter never returns `None`; on a pin whose net is set it returns that net
without mutating anything. -/
theorem c10_net_getter_autovivifies (s : GraphState) (p : Nat)
    (hp : p < s.pins.length) :
    (pinNetField s p = none →
      pinNetGet s p =
        (pinSeed s p ConnectDirection.UNKNOWN, some s.nets.length) ∧
      (pinNetGet s p).1.nets.length = s.nets.length + 1 ∧
      netName (pinNetGet s p).1 s.nets.length = none ∧
      connsOf (pinNetGet s p).1 s.nets.length =
        [(p, ConnectDirection.UNKNOWN)] ∧
      pinNetField (pinNetGet s p).1 p = some s.nets.length) ∧
    (∀ n, pinNetField s p = some n → pinNetGet s p = (s, some n)) ∧
    (pinNetGet s p).2 ≠ none := by
  refine ⟨?_, ?_, ?_⟩
  · intro hf
    have heq := pinNetGet_of_none s p hf hp
    rw [heq]
    exact ⟨rfl, by rw [pinSeed_nets_length], netName_pinSeed_fresh s p _,
      connsOf_pinSeed_fresh s p _, pinNetField_pinSeed_self s p _ hf hp⟩
  · intro n hf
    exact pinNetGet_of_some s p n hf
  · cases hf : pinNetField s p with
    | some n =>
      rw [pinNetGet_of_some s p n hf]
      exact fun hh => Option.noConfusion hh
    | none =>
      rw [pinNetGet_of_none s p hf hp]
      exact fun hh => Option.noConfusion hh

/-- Witness for C10 on a one-pin graph with no nets: the getter returns the
freshly seeded anonymous net. -/
theorem c10_witness :
    pinNetGet ⟨[], [⟨none, PinType.PRIMARY⟩]⟩ 0 =
      (pinSeed ⟨[], [⟨none, PinType.PRIMARY⟩]⟩ 0 ConnectDirection.UNKNOWN,
       some 0) :=
  ((c10_net_getter_autovivifies ⟨[], [⟨none, PinType.PRIMARY⟩]⟩ 0
    (by decide)).1 (by decide)).1

/-- C5: a directional connect issued by a bound pin with no net first
creates a fresh anonymous net seeded with that pin under the opposite
direction (`<<` seeds the pin as OUT, `>>` seeds it as IN) and then
connects the others into that net; when the pin already has a net, no net
is created and the existing net is used. -/
theorem c5_bare_pin_connect_seeds_opposite (s : GraphState) (p : Nat)
    (ts : List Target) (hp : p < s.pins.length) :
    (pinNetField s p = none →
      pinLshift s p ts =
        (netConnect (pinSeed s p ConnectDirection.OUT) s.nets.length ts
          ConnectDirection.IN, some s.nets.length) ∧
      pinRshift s p ts =
        (netConnect (pinSeed s p ConnectDirection.IN) s.nets.length ts
          ConnectDirection.OUT, some s.nets.length) ∧
      connsOf (pinSeed s p ConnectDirection.OUT) s.nets.length =
        [(p, ConnectDirection.OUT)] ∧
      connsOf (pinSeed s p ConnectDirection.IN) s.nets.length =
        [(p, ConnectDirection.IN)] ∧
      netName (pinSeed s p ConnectDirection.OUT) s.nets.length = none ∧
      netName (pinSeed s p ConnectDirection.IN) s.nets.length = none ∧
      (pinSeed s p ConnectDirection.OUT).nets.length = s.nets.length + 1 ∧
      (pinSeed s p ConnectDirection.IN).nets.length = s.nets.length + 1) ∧
    (∀ n, pinNetField s p = some n →
      pinLshift s p ts = (netConnect s n ts ConnectDirection.IN, some n) ∧
      pinRshift s p ts = (netConnect s n ts ConnectDirection.OUT, some n) ∧
      (pinLshift s p ts).1.1.nets.length = s.nets.length ∧
      (pinRshift s p ts).1.1.nets.length = s.nets.length) := by
  constructor
  · intro hf
    exact ⟨pinLshift_of_none s p ts hf hp, pinRshift_of_none s p ts hf hp,
      connsOf_pinSeed_fresh s p _, connsOf_pinSeed_fresh s p _,
      netName_pinSeed_fresh s p _, netName_pinSeed_fresh s p _,
      pinSeed_nets_length s p _, pinSeed_nets_length s p _⟩
  · intro n hf
    refine ⟨pinLshift_of_some s p n ts hf, pinRshift_of_some s p n ts hf,
      ?_, ?_⟩
    · rw [pinLshift_of_some s p n ts hf]
      exact netConnect_nets_length s n ts _
    · rw [pinRshift_of_some s p n ts hf]
      exact netConnect_nets_length s n ts _

/-- Witness for C5 on a one-pin graph with no nets: both conjuncts of the
unset-pin case, instantiated. -/
theorem c5_witness :
    pinLshift ⟨[], [⟨none, PinType.PRIMARY⟩]⟩ 0 [] =
      (netConnect (pinSeed ⟨[], [⟨none, PinType.PRIMARY⟩]⟩ 0
        ConnectDirection.OUT) 0 [] ConnectDirection.IN, some 0) ∧
    connsOf (pinSeed ⟨[], [⟨none, PinType.PRIMARY⟩]⟩ 0
      ConnectDirection.OUT) 0 = [(0, ConnectDirection.OUT)] :=
  ⟨((c5_bare_pin_connect_seeds_opposite ⟨[], [⟨none, PinType.PRIMARY⟩]⟩ 0 []
      (by decide)).1 (by decide)).1,
   ((c5_bare_pin_connect_seeds_opposite ⟨[], [⟨none, PinType.PRIMARY⟩]⟩ 0 []
      (by decide)).1 (by decide)).2.2.1⟩

/-- C6: connecting an ordered group of fresh pins into a net connects each
element in the group's order with the same direction tag, appending them to
the net's member map in that order, touching no other net and no other
pin, and the `<<` operator returns the same net id so a chained expression
keeps accumulating on one net. -/
theorem c6_group_connect_in_order (s : GraphState) (nid : Nat)
    (dir : ConnectDirection) (ps : List Nat) (hn : nid < s.nets.length)
    (hfresh : ∀ p ∈ ps, p < s.pins.length ∧ pinNetField s p = none)
    (hkeys : ∀ p ∈ ps, ∀ e ∈ connsOf s nid, e.1 ≠ p)
    (hnodup : ps.Nodup) :
    (netConnect s nid (ps.map Target.pinT) dir).2 = none ∧
    connsOf (netConnect s nid (ps.map Target.pinT) dir).1 nid =
      connsOf s nid ++ ps.map (fun p => (p, dir)) ∧
    (∀ m, m ≠ nid →
      connsOf (netConnect s nid (ps.map Target.pinT) dir).1 m = connsOf s m) ∧
    (∀ p ∈ ps,
      pinNetField (netConnect s nid (ps.map Target.pinT) dir).1 p = some nid) ∧
    (∀ q, q ∉ ps →
      pinNetField (netConnect s nid (ps.map Target.pinT) dir).1 q =
        pinNetField s q) ∧
    (netLshift s nid (ps.map Target.pinT)).2 = nid := by
  induction ps generalizing s with
  | nil =>
    refine ⟨rfl, by simp [netConnect], fun m _ => rfl, ?_, fun q _ => rfl, rfl⟩
    intro p hp
    exact absurd hp (List.not_mem_nil p)
  | cons p rest ih =>
    obtain ⟨hp, hf⟩ := hfresh p (List.mem_cons_self _ _)
    have hok : (connectOnePin s nid p dir).2 = none := by
      rw [connectOnePin_snd, hf]
      rfl
    have hpair : connectTarget s nid (Target.pinT p) dir =
        ((connectOnePin s nid p dir).1, none) := Prod.ext rfl hok
    have hmapcons : (p :: rest).map Target.pinT =
        Target.pinT p :: rest.map Target.pinT := rfl
    have hred := netConnect_cons_ok s nid (Target.pinT p)
      (rest.map Target.pinT) dir (connectOnePin s nid p dir).1 hpair
    rw [hmapcons, hred]
    have hpins1 := connectOnePin_pins_length s nid p dir
    have hnets1 := connectOnePin_nets_length s nid p dir
    have hconnsSelf : connsOf (connectOnePin s nid p dir).1 nid =
        connsOf s nid ++ [(p, dir)] := by
      rw [connsOf_connectOnePin_self s nid p dir hn,
        odAssign_of_not_key _ _ _ (fun e he => hkeys p
          (List.mem_cons_self _ _) e he)]
    have hfieldp : pinNetField (connectOnePin s nid p dir).1 p = some nid :=
      pinNetField_connectOnePin_self s nid p dir hf hp
    have hpnotrest : p ∉ rest := (List.nodup_cons.1 hnodup).1
    have hih := ih (connectOnePin s nid p dir).1 (by omega)
      (fun q hq => by
        have h2 := hfresh q (List.mem_cons_of_mem _ hq)
        have hqp : q ≠ p := fun hh => hpnotrest (hh ▸ hq)
        exact ⟨by omega,
          by rw [pinNetField_connectOnePin_ne s nid p dir q hqp]
             exact h2.2⟩)
      (fun q hq e he => by
        rw [hconnsSelf] at he
        rcases List.mem_append.1 he with he | he
        · exact hkeys q (List.mem_cons_of_mem _ hq) e he
        · simp only [List.mem_singleton] at he
          rw [he]
          intro hh
          have hh' : p = q := hh
          exact hpnotrest (hh' ▸ hq))
      (List.nodup_cons.1 hnodup).2
    obtain ⟨ih1, ih2, ih3, ih4, ih5, _⟩ := hih
    refine ⟨ih1, ?_, ?_, ?_, ?_, rfl⟩
    · rw [ih2, hconnsSelf]
      simp [List.append_assoc]
    · intro m hm
      rw [ih3 m hm, connsOf_connectOnePin_ne s nid p dir m hm]
    · intro q hq
      rcases List.mem_cons.1 hq with rfl | hq'
      · rw [ih5 q hpnotrest]
        exact hfieldp
      · exact ih4 q hq'
    · intro q hq
      have hqp : q ≠ p := fun hh => hq (hh ▸ List.mem_cons_self _ _)
      have hqrest : q ∉ rest := fun hh => hq (List.mem_cons_of_mem _ hh)
      rw [ih5 q hqrest, pinNetField_connectOnePin_ne s nid p dir q hqp]

/-- Witness for C6: connecting the group [pin 0, pin 1] into net 0 of a
two-pin one-net graph. -/
theorem c6_witness :
    (netConnect ⟨[⟨none, []⟩], [⟨none, PinType.PRIMARY⟩,
        ⟨none, PinType.SECONDARY⟩]⟩ 0 ([0, 1].map Target.pinT)
        ConnectDirection.IN).2 = none ∧
    connsOf (netConnect ⟨[⟨none, []⟩], [⟨none, PinType.PRIMARY⟩,
        ⟨none, PinType.SECONDARY⟩]⟩ 0 ([0, 1].map Target.pinT)
        ConnectDirection.IN).1 0 =
      connsOf ⟨[⟨none, []⟩], [⟨none, PinType.PRIMARY⟩,
        ⟨none, PinType.SECONDARY⟩]⟩ 0 ++
        [0, 1].map (fun p => (p, ConnectDirection.IN)) :=
  ⟨(c6_group_connect_in_order ⟨[⟨none, []⟩], [⟨none, PinType.PRIMARY⟩,
      ⟨none, PinType.SECONDARY⟩]⟩ 0 ConnectDirection.IN [0, 1] (by decide)
      (by decide) (by decide) (by decide)).1,
   (c6_group_connect_in_order ⟨[⟨none, []⟩], [⟨none, PinType.PRIMARY⟩,
      ⟨none, PinType.SECONDARY⟩]⟩ 0 ConnectDirection.IN [0, 1] (by decide)
      (by decide) (by decide) (by decide)).2.1⟩

/-- Modelled from the spec: a concrete `Part.get_pin_to_connect`.  The
`Part` class in base.py only declares this operation (its body
unconditionally raises `NotImplementedError`); the concrete resolution the
spec describes — "the" pin of the part whose type matches the requested
default pin type, failing when there are zero or several — lives in the
part subclasses outside this file's sources.  Here a part is its list of
bound-pin ids; the result is `some` exactly when one pin matches. -/
def get_pin_to_connect (s : GraphState) (partPins : List Nat)
    (pt : PinType) : Option Nat :=
  match partPins.filter (fun q => pinTypeOf s q = pt) with
  | [q] => some q
  | _ => none

/-- Modelled from the spec: `Net.connect`'s dispatch with the modelled
`get_pin_to_connect` substituted for the abstract stub, so that a part
target resolves to its unique default pin or fails with the spec's
`NoSuchPinType`/`AmbiguousPinSelection` error; other targets behave exactly
as `connectTarget` from the source. -/
def connectTargetResolved (s : GraphState) (nid : Nat) (t : Target)
    (dir : ConnectDirection) (pt : PinType) : GraphState × Option Err :=
  match t with
  | Target.partT pl =>
    match get_pin_to_connect s pl pt with
    | some q => connectOnePin s nid q dir
    | none => (s, some Err.noSuchPinType)
  | Target.pinT q => connectOnePin s nid q dir
  | Target.netT _ => (s, some Err.netToNetUnsupported)

theorem get_pin_to_connect_of_unique (s : GraphState) (pl : List Nat)
    (pt : PinType) (p : Nat)
    (h : pl.filter (fun q => pinTypeOf s q = pt) = [p]) :
    get_pin_to_connect s pl pt = some p := by
  unfold get_pin_to_connect
  rw [h]

theorem get_pin_to_connect_of_not_unique (s : GraphState) (pl : List Nat)
    (pt : PinType)
    (h : (pl.filter (fun q => pinTypeOf s q = pt)).length ≠ 1) :
    get_pin_to_connect s pl pt = none := by
  unfold get_pin_to_connect
  cases hfil : pl.filter (fun q => pinTypeOf s q = pt) with
  | nil => rfl
  | cons a t =>
    cases t with
    | nil =>
      rw [hfil] at h
      exact absurd rfl h
    | cons b t2 => rfl

/-- C3 (spec-modelled): when a part is used as a connect target, if exactly
one of its pins matches the requested default pin type the connect
resolves to that pin and succeeds (recording it in the net and setting its
`net` field); with zero or several matching pins it fails with the
explicit selection error, leaving the state unchanged. -/
theorem c3_part_default_pin_resolution (s : GraphState) (nid : Nat)
    (dir : ConnectDirection) (pt : PinType) (pl : List Nat) (p : Nat) :
    (pl.filter (fun q => pinTypeOf s q = pt) = [p] →
      p < s.pins.length → pinNetField s p = none →
      (∀ e ∈ connsOf s nid, e.1 ≠ p) → nid < s.nets.length →
      (connectTargetResolved s nid (Target.partT pl) dir pt).2 = none ∧
      pinNetField (connectTargetResolved s nid (Target.partT pl) dir pt).1
        p = some nid ∧
      connsOf (connectTargetResolved s nid (Target.partT pl) dir pt).1 nid =
        connsOf s nid ++ [(p, dir)]) ∧
    ((pl.filter (fun q => pinTypeOf s q = pt)).length ≠ 1 →
      connectTargetResolved s nid (Target.partT pl) dir pt =
        (s, some Err.noSuchPinType)) := by
  constructor
  · intro hfil hp hf hkeys hn
    have hres : connectTargetResolved s nid (Target.partT pl) dir pt =
        connectOnePin s nid p dir := by
      show (match get_pin_to_connect s pl pt with
        | some q => connectOnePin s nid q dir
        | none => (s, some Err.noSuchPinType)) = connectOnePin s nid p dir
      rw [get_pin_to_connect_of_unique s pl pt p hfil]
    rw [hres]
    refine ⟨?_, pinNetField_connectOnePin_self s nid p dir hf hp, ?_⟩
    · rw [connectOnePin_snd, hf]
      rfl
    · rw [connsOf_connectOnePin_self s nid p dir hn,
        odAssign_of_not_key _ _ _ hkeys]
  · intro hlen
    show (match get_pin_to_connect s pl pt with
      | some q => connectOnePin s nid q dir
      | none => (s, some Err.noSuchPinType)) = (s, some Err.noSuchPinType)
    rw [get_pin_to_connect_of_not_unique s pl pt hlen]

/-- Witness for C3: a two-pin part with exactly one PRIMARY pin resolves to
it, and with the requested type GROUND (no matching pin) fails. -/
theorem c3_witness :
    ((connectTargetResolved ⟨[⟨none, []⟩], [⟨none, PinType.PRIMARY⟩,
        ⟨none, PinType.SECONDARY⟩]⟩ 0 (Target.partT [0, 1])
        ConnectDirection.IN PinType.PRIMARY).2 = none ∧
      pinNetField (connectTargetResolved ⟨[⟨none, []⟩],
        [⟨none, PinType.PRIMARY⟩, ⟨none, PinType.SECONDARY⟩]⟩ 0
        (Target.partT [0, 1]) ConnectDirection.IN PinType.PRIMARY).1 0 =
        some 0) ∧
    connectTargetResolved ⟨[⟨none, []⟩], [⟨none, PinType.PRIMARY⟩,
        ⟨none, PinType.SECONDARY⟩]⟩ 0 (Target.partT [0, 1])
        ConnectDirection.IN PinType.GROUND =
      (⟨[⟨none, []⟩], [⟨none, PinType.PRIMARY⟩, ⟨none, PinType.SECONDARY⟩]⟩,
       some Err.noSuchPinType) :=
  ⟨⟨((c3_part_default_pin_resolution ⟨[⟨none, []⟩], [⟨none, PinType.PRIMARY⟩,
        ⟨none, PinType.SECONDARY⟩]⟩ 0 ConnectDirection.IN PinType.PRIMARY
        [0, 1] 0).1 (by decide) (by decide) (by decide) (by decide)
        (by decide)).1,
    ((c3_part_default_pin_resolution ⟨[⟨none, []⟩], [⟨none, PinType.PRIMARY⟩,
        ⟨none, PinType.SECONDARY⟩]⟩ 0 ConnectDirection.IN PinType.PRIMARY
        [0, 1] 0).1 (by decide) (by decide) (by decide) (by decide)
        (by decide)).2.1⟩,
   (c3_part_default_pin_resolution ⟨[⟨none, []⟩], [⟨none, PinType.PRIMARY⟩,
      ⟨none, PinType.SECONDARY⟩]⟩ 0 ConnectDirection.IN PinType.GROUND
      [0, 1] 0).2 (by decide)⟩

/-- Default pin template used with `getD` in index lemmas. -/
def noTpl : PinTemplate := ⟨[], none, PinType.UNKNOWN, none⟩

theorem wellResolve_missing (bound : List BoundPin)
    (m : List (String × Nat)) (w : String)
    (hj : pinListGet bound m w = none) :
    wellResolve bound m (some w) = Except.error PartErr.unknownWellPin := by
  show (match pinListGet bound m w with
    | none => Except.error PartErr.unknownWellPin
    | some j =>
        if (bound.getD j noPin).type = PinType.POWER_INPUT ∨
            (bound.getD j noPin).type = PinType.POWER_OUTPUT then
          Except.ok (some j)
        else Except.error PartErr.invalidWellPinType) =
    Except.error PartErr.unknownWellPin
  rw [hj]

theorem wellResolve_found_power (bound : List BoundPin)
    (m : List (String × Nat)) (w : String) (j : Nat)
    (hj : pinListGet bound m w = some j)
    (ht : (bound.getD j noPin).type = PinType.POWER_INPUT ∨
      (bound.getD j noPin).type = PinType.POWER_OUTPUT) :
    wellResolve bound m (some w) = Except.ok (some j) := by
  show (match pinListGet bound m w with
    | none => Except.error PartErr.unknownWellPin
    | some j =>
        if (bound.getD j noPin).type = PinType.POWER_INPUT ∨
            (bound.getD j noPin).type = PinType.POWER_OUTPUT then
          Except.ok (some j)
        else Except.error PartErr.invalidWellPinType) =
    Except.ok (some j)
  rw [hj]
  show (if (bound.getD j noPin).type = PinType.POWER_INPUT ∨
      (bound.getD j noPin).type = PinType.POWER_OUTPUT then
    Except.ok (some j) else Except.error PartErr.invalidWellPinType) =
    Except.ok (some j)
  rw [if_pos ht]

theorem wellResolve_found_notpower (bound : List BoundPin)
    (m : List (String × Nat)) (w : String) (j : Nat)
    (hj : pinListGet bound m w = some j)
    (ht : ¬((bound.getD j noPin).type = PinType.POWER_INPUT ∨
      (bound.getD j noPin).type = PinType.POWER_OUTPUT)) :
    wellResolve bound m (some w) = Except.error PartErr.invalidWellPinType := by
  show (match pinListGet bound m w with
    | none => Except.error PartErr.unknownWellPin
    | some j =>
        if (bound.getD j noPin).type = PinType.POWER_INPUT ∨
            (bound.getD j noPin).type = PinType.POWER_OUTPUT then
          Except.ok (some j)
        else Except.error PartErr.invalidWellPinType) =
    Except.error PartErr.invalidWellPinType
  rw [hj]
  show (if (bound.getD j noPin).type = PinType.POWER_INPUT ∨
      (bound.getD j noPin).type = PinType.POWER_OUTPUT then
    Except.ok (some j) else Except.error PartErr.invalidWellPinType) =
    Except.error PartErr.invalidWellPinType
  rw [if_neg ht]

theorem mkParticularPin_of_well_ok (bound : List BoundPin)
    (m : List (String × Nat)) (sp : PinTemplate) (i : Nat) (wj : Option Nat)
    (h : wellResolve bound m sp.well_name = Except.ok wj) :
    mkParticularPin bound m sp i =
      Except.ok ⟨sp.names, resolvedNumbers sp i, sp.type, wj⟩ := by
  unfold mkParticularPin
  rw [h]

theorem mkParticularPin_of_well_err (bound : List BoundPin)
    (m : List (String × Nat)) (sp : PinTemplate) (i : Nat) (e : PartErr)
    (h : wellResolve bound m sp.well_name = Except.error e) :
    mkParticularPin bound m sp i = Except.error e := by
  unfold mkParticularPin
  rw [h]

theorem mkParticularPin_no_well (bound : List BoundPin)
    (m : List (String × Nat)) (sp : PinTemplate) (i : Nat)
    (h : sp.well_name = none) :
    mkParticularPin bound m sp i =
      Except.ok ⟨sp.names, resolvedNumbers sp i, sp.type, none⟩ :=
  mkParticularPin_of_well_ok bound m sp i none (by rw [h]; rfl)

theorem mkParticularPin_ok_fields (bound : List BoundPin)
    (m : List (String × Nat)) (sp : PinTemplate) (i : Nat) (bp : BoundPin)
    (h : mkParticularPin bound m sp i = Except.ok bp) :
    bp.names = sp.names ∧ bp.numbers = resolvedNumbers sp i ∧
    bp.type = sp.type := by
  cases hwr : wellResolve bound m sp.well_name with
  | error e =>
    rw [mkParticularPin_of_well_err bound m sp i e hwr] at h
    exact Except.noConfusion h
  | ok wj =>
    rw [mkParticularPin_of_well_ok bound m sp i wj hwr] at h
    have hbp := Except.ok.inj h
    rw [← hbp]
    exact ⟨rfl, rfl, rfl⟩

theorem genPinsGo_cons_ok (sp : PinTemplate) (rest : List PinTemplate)
    (i : Nat) (bound : List BoundPin) (m : List (String × Nat))
    (bp : BoundPin) (h : mkParticularPin bound m sp i = Except.ok bp) :
    genPinsGo (sp :: rest) i bound m =
      genPinsGo rest (i + 1) (bound ++ [bp])
        (odAssign m bp.primary bound.length) := by
  conv_lhs => unfold genPinsGo
  rw [h]

theorem genPinsGo_cons_err (sp : PinTemplate) (rest : List PinTemplate)
    (i : Nat) (bound : List BoundPin) (m : List (String × Nat)) (e : PartErr)
    (h : mkParticularPin bound m sp i = Except.error e) :
    genPinsGo (sp :: rest) i bound m = Except.error e := by
  conv_lhs => unfold genPinsGo
  rw [h]

theorem genPinsGo_ok_of_no_well (specs : List PinTemplate) (i : Nat)
    (bound : List BoundPin) (m : List (String × Nat))
    (h : ∀ sp ∈ specs, sp.well_name = none) :
    ∃ r, genPinsGo specs i bound m = Except.ok r := by
  induction specs generalizing i bound m with
  | nil => exact ⟨(bound, m), rfl⟩
  | cons sp rest ih =>
    rw [genPinsGo_cons_ok sp rest i bound m _
      (mkParticularPin_no_well bound m sp i (h sp (List.mem_cons_self _ _)))]
    exact ih (i + 1) _ _ (fun q hq => h q (List.mem_cons_of_mem _ hq))

theorem genPinsGo_ok_shape (specs : List PinTemplate) (i : Nat)
    (bound bound' : List BoundPin) (m m' : List (String × Nat))
    (h : genPinsGo specs i bound m = Except.ok (bound', m')) :
    bound'.length = bound.length + specs.length ∧
    (∀ k, k < bound.length → bound'.getD k noPin = bound.getD k noPin) ∧
    (∀ k, k < specs.length →
      (bound'.getD (bound.length + k) noPin).numbers =
        resolvedNumbers (specs.getD k noTpl) (i + k) ∧
      (bound'.getD (bound.length + k) noPin).names =
        (specs.getD k noTpl).names) := by
  induction specs generalizing i bound m with
  | nil =>
    unfold genPinsGo at h
    have h2 := Except.ok.inj h
    have hb : bound = bound' := congrArg Prod.fst h2
    refine ⟨?_, ?_, ?_⟩
    · rw [← hb]
      simp
    · intro k hk
      rw [← hb]
    · intro k hk
      exact absurd hk (by simp)
  | cons sp rest ih =>
    cases hmk : mkParticularPin bound m sp i with
    | error e =>
      rw [genPinsGo_cons_err sp rest i bound m e hmk] at h
      exact Except.noConfusion h
    | ok bp =>
      rw [genPinsGo_cons_ok sp rest i bound m bp hmk] at h
      obtain ⟨ih1, ih2, ih3⟩ := ih (i + 1) (bound ++ [bp])
        (odAssign m bp.primary bound.length) h
      have hfields := mkParticularPin_ok_fields bound m sp i bp hmk
      refine ⟨?_, ?_, ?_⟩
      · rw [ih1]
        simp only [List.length_append, List.length_cons, List.length_nil]
        omega
      · intro k hk
        rw [ih2 k (by simp only [List.length_append, List.length_cons,
          List.length_nil]; omega)]
        rw [List.getD_append _ _ _ _ hk]
      · intro k hk
        cases k with
        | zero =>
          have hb : bound'.getD (bound.length + 0) noPin = bp := by
            rw [ih2 (bound.length + 0)
              (by simp only [List.length_append, List.length_cons,
                List.length_nil]; omega)]
            rw [List.getD_append_right _ _ _ _ (by omega)]
            simp
          rw [hb]
          exact ⟨by rw [hfields.2.1]; rfl, by rw [hfields.1]; rfl⟩
        | succ k' =>
          have hidx : bound.length + (k' + 1) = (bound ++ [bp]).length + k' := by
            simp only [List.length_append, List.length_cons, List.length_nil]
            omega
          have h3 := ih3 k' (by simp only [List.length_cons] at hk; omega)
          rw [hidx]
          have hsp : rest.getD k' noTpl = (sp :: rest).getD (k' + 1) noTpl := rfl
          have hi : (i + 1) + k' = i + (k' + 1) := by omega
          rw [hsp, hi] at h3
          exact h3

theorem genPinsGo_nil (i : Nat) (bound : List BoundPin)
    (m : List (String × Nat)) :
    genPinsGo [] i bound m = Except.ok (bound, m) := rfl

theorem odAssign_nil {α β : Type} [DecidableEq α] (k : α) (v : β) :
    odAssign ([] : List (α × β)) k v = [(k, v)] := rfl

theorem getD_map_normalize (entries : List PinEntry) (k : Nat)
    (hk : k < entries.length) :
    (entries.map normalizeEntry).getD k noTpl =
      normalizeEntry (entries.getD k (PinEntry.nameE "")) := by
  rw [List.getD_eq_getElem _ _ (by simpa using hk),
    List.getD_eq_getElem _ _ hk, List.getElem_map]

/-- C4 counterexample: a pin list declaring the same alias twice (differing
only in case) is not rejected — part construction succeeds, and the later
pin silently replaces the earlier one under the shared alias key of the pin
map, which ends up as just [("A", 1)]. -/
theorem c4_counterexample :
    generatePinInstances [PinEntry.nameE "A", PinEntry.nameE "a"] =
      Except.ok ([⟨["A"], ["0"], PinType.UNKNOWN, none⟩,
                  ⟨["A"], ["1"], PinType.UNKNOWN, none⟩],
                 [("A", 1)]) := by decide

/-- C4 (amended): `_generate_pin_instances` performs no duplicate-alias
check: for every pin list whose templates declare no well names, part-type
construction succeeds and builds one bound pin per entry, duplicate
aliases included; a repeated primary alias only rebinds the pin-map key to
the later pin (see the counterexample). -/
theorem c4_no_duplicate_detection (entries : List PinEntry)
    (h : ∀ e ∈ entries, (normalizeEntry e).well_name = none) :
    ∃ bound m, generatePinInstances entries = Except.ok (bound, m) ∧
      bound.length = entries.length := by
  unfold generatePinInstances
  obtain ⟨⟨bound, m⟩, hr⟩ := genPinsGo_ok_of_no_well
    (entries.map normalizeEntry) 0 [] []
    (fun sp hsp => by
      obtain ⟨e, he, hfe⟩ := List.mem_map.1 hsp
      rw [← hfe]
      exact h e he)
  refine ⟨bound, m, hr, ?_⟩
  have h1 := (genPinsGo_ok_shape _ 0 [] bound [] m hr).1
  rw [h1]
  simp

/-- Witness for C4 (amended) on a one-entry pin list. -/
theorem c4_witness :
    (generatePinInstances [PinEntry.nameE "X"]).isOk = true := by
  obtain ⟨bound, m, hr, _⟩ :=
    c4_no_duplicate_detection [PinEntry.nameE "X"] (by decide)
  rw [hr]
  rfl

/-- C7 counterexample: a pin template that supplies an explicitly empty
numbers sequence yields a bound pin whose resolved numbers are empty — the
source's assert only checks `numbers is not None`, so construction
succeeds with an empty `resolved_numbers`. -/
theorem c7_counterexample :
    generatePinInstances
      [PinEntry.pinE (mkPin ["A"] (some []) PinType.UNKNOWN none)] =
      Except.ok ([⟨["A"], [], PinType.UNKNOWN, none⟩], [("A", 0)]) := by decide

/-- C7 (amended): for every successfully constructed part, one bound pin is
built per declared entry; a pin whose template supplies no numbers gets
exactly one resolved number, the stringified zero-based declaration
position; a template that supplies numbers keeps them verbatim — so
resolved numbers are non-empty except for a template that explicitly
supplies an empty numbers sequence (see the counterexample). -/
theorem c7_resolved_numbers (entries : List PinEntry)
    (bound : List BoundPin) (m : List (String × Nat))
    (h : generatePinInstances entries = Except.ok (bound, m)) :
    bound.length = entries.length ∧
    (∀ k, k < entries.length →
      (bound.getD k noPin).numbers =
        resolvedNumbers (normalizeEntry (entries.getD k (PinEntry.nameE "")))
          k) ∧
    (∀ k, k < entries.length →
      (normalizeEntry (entries.getD k (PinEntry.nameE ""))).numbers = none →
      (bound.getD k noPin).numbers = [toString k]) := by
  unfold generatePinInstances at h
  obtain ⟨h1, h2, h3⟩ :=
    genPinsGo_ok_shape (entries.map normalizeEntry) 0 [] bound [] m h
  have hlen : bound.length = entries.length := by
    rw [h1]
    simp
  have hnum : ∀ k, k < entries.length →
      (bound.getD k noPin).numbers =
        resolvedNumbers (normalizeEntry (entries.getD k (PinEntry.nameE "")))
          k := by
    intro k hk
    have h4 := (h3 k (by simpa using hk)).1
    simp only [List.length_nil, Nat.zero_add] at h4
    rw [h4, getD_map_normalize entries k hk]
  refine ⟨hlen, hnum, ?_⟩
  intro k hk hnone
  rw [hnum k hk]
  unfold resolvedNumbers
  rw [hnone]

/-- Witness for C7 (amended) on a part with one plain-alias pin: its
resolved numbers are exactly ["0"]. -/
theorem c7_witness :
    ([(⟨["A"], ["0"], PinType.UNKNOWN, none⟩ : BoundPin)].length =
      [PinEntry.nameE "A"].length) ∧
    (([(⟨["A"], ["0"], PinType.UNKNOWN, none⟩ : BoundPin)].getD 0
      noPin).numbers = [toString 0]) :=
  ⟨(c7_resolved_numbers [PinEntry.nameE "A"]
      [⟨["A"], ["0"], PinType.UNKNOWN, none⟩] [("A", 0)] (by decide)).1,
   (c7_resolved_numbers [PinEntry.nameE "A"]
      [⟨["A"], ["0"], PinType.UNKNOWN, none⟩] [("A", 0)] (by decide)).2.2 0
      (by decide) (by decide)⟩

theorem pinListGet_single_hit (bp : BoundPin) (k0 : String) (w : String)
    (h : strUpper w = k0) :
    pinListGet [bp] [(k0, 0)] w = some 0 := by
  unfold pinListGet
  have ha : assocLookup [(k0, 0)] (strUpper w) = some 0 := by
    unfold assocLookup
    rw [if_pos h.symm]
  rw [ha]

theorem pinListGet_single_miss (bp : BoundPin) (k0 : String) (w : String)
    (hk : strUpper w ≠ k0) (hn : strUpper w ∉ bp.names) :
    pinListGet [bp] [(k0, 0)] w = none := by
  unfold pinListGet
  have ha : assocLookup [(k0, 0)] (strUpper w) = none := by
    unfold assocLookup
    rw [if_neg (fun hh => hk hh.symm)]
    rfl
  rw [ha]
  unfold scanNames
  rw [if_neg ?_]
  · rfl
  · show ¬(strUpper w ∈ ([bp].getD 0 noPin).names)
    exact hn

/-- C8 counterexample: a pin declaring a well alias that only a LATER pin
of the same part carries fails with `unknownWellPin`, even though the part
does have a pin with that alias and of power type — resolution looks only
at the pins built so far. -/
theorem c8_counterexample :
    generatePinInstances
      [PinEntry.pinE (mkPin ["SIG"] none PinType.UNKNOWN (some "PWR")),
       PinEntry.pinE (mkPin ["PWR"] none PinType.POWER_INPUT none)] =
      Except.error PartErr.unknownWellPin := by decide

/-- C8 (amended): a pin's declared well alias is resolved, during
construction, among the pins declared BEFORE it in the same part: for a
two-pin part whose second pin declares the first pin's alias as its well,
if the first pin's type is a power type the part is built with the second
pin's `well` set to the first pin; if it is not a power type construction
fails with `invalidWellPinType`; if the alias matches no earlier pin
construction fails with `unknownWellPin` (even when a later pin would
match, see the counterexample). -/
theorem c8_well_resolution (n1 n2 w : String) (t1 t2 : PinType)
    (nums1 nums2 : Option (List String)) :
    (strUpper w = strUpper n1 →
      (t1 = PinType.POWER_INPUT ∨ t1 = PinType.POWER_OUTPUT) →
      generatePinInstances
          [PinEntry.pinE (mkPin [n1] nums1 t1 none),
           PinEntry.pinE (mkPin [n2] nums2 t2 (some w))] =
        Except.ok
          ([⟨[strUpper n1], resolvedNumbers (mkPin [n1] nums1 t1 none) 0,
             t1, none⟩,
            ⟨[strUpper n2], resolvedNumbers (mkPin [n2] nums2 t2 (some w)) 1,
             t2, some 0⟩],
           odAssign [(strUpper n1, 0)] (strUpper n2) 1)) ∧
    (strUpper w = strUpper n1 → t1 ≠ PinType.POWER_INPUT →
      t1 ≠ PinType.POWER_OUTPUT →
      generatePinInstances
          [PinEntry.pinE (mkPin [n1] nums1 t1 none),
           PinEntry.pinE (mkPin [n2] nums2 t2 (some w))] =
        Except.error PartErr.invalidWellPinType) ∧
    (strUpper w ≠ strUpper n1 →
      generatePinInstances
          [PinEntry.pinE (mkPin [n1] nums1 t1 none),
           PinEntry.pinE (mkPin [n2] nums2 t2 (some w))] =
        Except.error PartErr.unknownWellPin) := by
  have hspec1 : normalizeEntry (PinEntry.pinE (mkPin [n1] nums1 t1 none)) =
      mkPin [n1] nums1 t1 none := rfl
  have hstep1 : genPinsGo
      [mkPin [n1] nums1 t1 none, mkPin [n2] nums2 t2 (some w)] 0 [] [] =
      genPinsGo [mkPin [n2] nums2 t2 (some w)] 1
        [⟨[strUpper n1], resolvedNumbers (mkPin [n1] nums1 t1 none) 0, t1,
          none⟩]
        [(strUpper n1, 0)] := by
    rw [genPinsGo_cons_ok _ _ 0 [] []
      ⟨[strUpper n1], resolvedNumbers (mkPin [n1] nums1 t1 none) 0, t1, none⟩
      (mkParticularPin_no_well [] [] (mkPin [n1] nums1 t1 none) 0 rfl)]
    rfl
  have hgen : generatePinInstances
      [PinEntry.pinE (mkPin [n1] nums1 t1 none),
       PinEntry.pinE (mkPin [n2] nums2 t2 (some w))] =
      genPinsGo [mkPin [n2] nums2 t2 (some w)] 1
        [⟨[strUpper n1], resolvedNumbers (mkPin [n1] nums1 t1 none) 0, t1,
          none⟩]
        [(strUpper n1, 0)] := hstep1
  refine ⟨?_, ?_, ?_⟩
  · intro heq hpow
    rw [hgen]
    have hlook := pinListGet_single_hit
      ⟨[strUpper n1], resolvedNumbers (mkPin [n1] nums1 t1 none) 0, t1, none⟩
      (strUpper n1) w heq
    have hwr := wellResolve_found_power
      [⟨[strUpper n1], resolvedNumbers (mkPin [n1] nums1 t1 none) 0, t1,
        none⟩]
      [(strUpper n1, 0)] w 0 hlook hpow
    rw [genPinsGo_cons_ok _ _ 1 _ _
      ⟨(mkPin [n2] nums2 t2 (some w)).names,
       resolvedNumbers (mkPin [n2] nums2 t2 (some w)) 1,
       (mkPin [n2] nums2 t2 (some w)).type, some 0⟩
      (mkParticularPin_of_well_ok _ _ (mkPin [n2] nums2 t2 (some w)) 1
        (some 0) hwr)]
    rw [genPinsGo_nil]
    rfl
  · intro heq hpi hpo
    rw [hgen]
    have hlook := pinListGet_single_hit
      ⟨[strUpper n1], resolvedNumbers (mkPin [n1] nums1 t1 none) 0, t1, none⟩
      (strUpper n1) w heq
    have hwr := wellResolve_found_notpower
      [⟨[strUpper n1], resolvedNumbers (mkPin [n1] nums1 t1 none) 0, t1,
        none⟩]
      [(strUpper n1, 0)] w 0 hlook
      (by
        intro hh
        rcases hh with hh | hh
        · exact hpi hh
        · exact hpo hh)
    rw [genPinsGo_cons_err _ _ 1 _ _ PartErr.invalidWellPinType
      (mkParticularPin_of_well_err _ _ (mkPin [n2] nums2 t2 (some w)) 1
        PartErr.invalidWellPinType hwr)]
  · intro hne
    rw [hgen]
    have hlook := pinListGet_single_miss
      ⟨[strUpper n1], resolvedNumbers (mkPin [n1] nums1 t1 none) 0, t1, none⟩
      (strUpper n1) w hne
      (by
        show strUpper w ∉ [strUpper n1]
        simp only [List.mem_singleton]
        exact hne)
    have hwr := wellResolve_missing
      [⟨[strUpper n1], resolvedNumbers (mkPin [n1] nums1 t1 none) 0, t1,
        none⟩]
      [(strUpper n1, 0)] w hlook
    rw [genPinsGo_cons_err _ _ 1 _ _ PartErr.unknownWellPin
      (mkParticularPin_of_well_err _ _ (mkPin [n2] nums2 t2 (some w)) 1
        PartErr.unknownWellPin hwr)]

/-- Witness for C8 (amended): a declared well "pwr" on the second pin of a
part whose first pin is "PWR" of type POWER_INPUT resolves to that first
pin. -/
theorem c8_witness :
    generatePinInstances
        [PinEntry.pinE (mkPin ["PWR"] none PinType.POWER_INPUT none),
         PinEntry.pinE (mkPin ["SIG"] none PinType.UNKNOWN (some "pwr"))] =
      Except.ok
        ([⟨[strUpper "PWR"],
           resolvedNumbers (mkPin ["PWR"] none PinType.POWER_INPUT none) 0,
           PinType.POWER_INPUT, none⟩,
          ⟨[strUpper "SIG"],
           resolvedNumbers
             (mkPin ["SIG"] none PinType.UNKNOWN (some "pwr")) 1,
           PinType.UNKNOWN, some 0⟩],
         odAssign [(strUpper "PWR", 0)] (strUpper "SIG") 1) :=
  (c8_well_resolution "PWR" "SIG" "pwr" PinType.POWER_INPUT PinType.UNKNOWN
    none none).1 (by decide) (by decide)

theorem mem_normEvents_pinHook (reg : PluginRegistry)
    (entries : List PinEntry) (e : HookEvent)
    (h : e ∈ normEvents reg entries) : ∃ k, e = HookEvent.pinHook k := by
  unfold normEvents at h
  obtain ⟨l, hl, hel⟩ := List.mem_flatten.1 h
  obtain ⟨x, hx, hfx⟩ := List.mem_map.1 hl
  cases x with
  | pinE p =>
    have hel2 : e ∈ ([] : List HookEvent) := by
      rw [← hfx] at hel
      exact hel
    exact absurd hel2 (List.not_mem_nil e)
  | nameE s0 =>
    have hel2 : e ∈ reg.pinPlugins.map HookEvent.pinHook := by
      rw [← hfx] at hel
      exact hel
    obtain ⟨k, _, hk⟩ := List.mem_map.1 hel2
    exact ⟨k, hk.symm⟩
  | namesE ss =>
    have hel2 : e ∈ reg.pinPlugins.map HookEvent.pinHook := by
      rw [← hfx] at hel
      exact hel
    obtain ⟨k, _, hk⟩ := List.mem_map.1 hel2
    exact ⟨k, hk.symm⟩

/-- C9 counterexample: with a plugin registered on `ParticularPin`
(registry entry 7) and no other plugins, instantiating a one-pin part
creates one bound pin yet fires NO hook at all (the event trace is empty):
`ParticularPin.__init__` never iterates its `_plugins` list, so no
construction hook fires for a bound pin. -/
theorem c9_counterexample :
    partInit ⟨[], [7], []⟩ [PinEntry.nameE "A"] =
      Except.ok (([⟨["A"], ["0"], PinType.UNKNOWN, none⟩], [("A", 0)]),
        []) := by decide

/-- C9 (amended): for every successful part instantiation, the fired hooks
are exactly the `Pin`-template hooks for the normalized entries followed by
the `Part` hooks once each in registration order (after pin generation);
no construction hook ever fires for a newly created bound pin. -/
theorem c9_bound_pin_hooks_never_fire (reg : PluginRegistry)
    (entries : List PinEntry)
    (res : List BoundPin × List (String × Nat)) (evs : List HookEvent)
    (h : partInit reg entries = Except.ok (res, evs)) :
    evs = normEvents reg entries ++
      reg.partPlugins.map HookEvent.partHook ∧
    ∀ e ∈ evs, ∀ k, e ≠ HookEvent.boundPinHook k := by
  unfold partInit at h
  cases hg : generatePinInstances entries with
  | error e =>
    rw [hg] at h
    exact Except.noConfusion h
  | ok r =>
    rw [hg] at h
    have h2 := Except.ok.inj h
    have hevs : evs = normEvents reg entries ++
        reg.partPlugins.map HookEvent.partHook :=
      (congrArg Prod.snd h2).symm
    refine ⟨hevs, ?_⟩
    intro e he k
    rw [hevs] at he
    rcases List.mem_append.1 he with he | he
    · obtain ⟨k', hk'⟩ := mem_normEvents_pinHook reg entries e he
      rw [hk']
      exact fun hh => HookEvent.noConfusion hh
    · obtain ⟨k', _, hk'⟩ := List.mem_map.1 he
      rw [← hk']
      exact fun hh => HookEvent.noConfusion hh

/-- Witness for C9 (amended) with one plugin of each kind registered. -/
theorem c9_witness :
    ([HookEvent.pinHook 1, HookEvent.partHook 3] : List HookEvent) =
      normEvents ⟨[1], [2], [3]⟩ [PinEntry.nameE "A"] ++
        [3].map HookEvent.partHook :=
  (c9_bound_pin_hooks_never_fire ⟨[1], [2], [3]⟩ [PinEntry.nameE "A"]
    ([⟨["A"], ["0"], PinType.UNKNOWN, none⟩], [("A", 0)])
    [HookEvent.pinHook 1, HookEvent.partHook 3] (by decide)).1

example : (netNew emptyGraph (some "vcc")).1.nets = [⟨some "VCC", []⟩] := by decide

example :
    run [Step.mkPin PinType.PRIMARY, Step.mkNet none, Step.mkNet none,
         Step.connect 0 [Target.pinT 0] ConnectDirection.IN,
         Step.connect 1 [Target.pinT 0] ConnectDirection.IN] =
      ⟨[⟨none, [(0, ConnectDirection.IN)]⟩, ⟨none, [(0, ConnectDirection.IN)]⟩],
       [⟨some 0, PinType.PRIMARY⟩]⟩ := by decide

example :
    generatePinInstances [PinEntry.nameE "a", PinEntry.nameE "b"] =
      Except.ok ([⟨["A"], ["0"], PinType.UNKNOWN, none⟩,
                  ⟨["B"], ["1"], PinType.UNKNOWN, none⟩],
                 [("A", 0), ("B", 1)]) := by decide

example :
    generatePinInstances
      [PinEntry.pinE (mkPin ["pwr"] none PinType.POWER_INPUT none),
       PinEntry.pinE (mkPin ["sig"] none PinType.INPUT (some "pwr"))] =
      Except.ok ([⟨["PWR"], ["0"], PinType.POWER_INPUT, none⟩,
                  ⟨["SIG"], ["1"], PinType.INPUT, some 0⟩],
                 [("PWR", 0), ("SIG", 1)]) := by decide

example :
    let s := (addPin (netNew emptyGraph none).1 PinType.PRIMARY).1
    let r := netConnect s 0 [Target.pinT 0] ConnectDirection.IN
    r.2 = none ∧ connsOf r.1 0 = [(0, ConnectDirection.IN)] ∧
      pinNetField r.1 0 = some 0 := by decide

end Pcbdl
